import Mathlib

/-!
Verification of the `loaf` agent runtime core: a shallow embedding of the
tool execution layer (tool runtime, background shell stream buffers, the
stateful-shell cwd/env capture), the codex-style patch applier, the anchored
context-compaction engine, and the streaming chunking policy, together with
proofs of the specified properties.

JavaScript strings are modelled as `List Char` (`Str`), JavaScript numbers as
`Int` or `Nat` depending on the guaranteed sign of the quantity, thrown
exceptions as `Except`, and stateful methods as explicit state passing.
-/

namespace Loaf

/-- A JavaScript string, modelled as its sequence of characters. -/
abbrev Str := List Char

/-- JSON values (`tools/types.ts` `JsonValue`). Numbers restricted to
integers, which is all the modelled code paths produce or inspect. -/
inductive Json where
  | null
  | bool (b : Bool)
  | num (n : Int)
  | str (s : Str)
  | arr (items : List Json)
  | obj (fields : List (Str × Json))

/-- `ToolContext` (`tools/types.ts`): the clock is the only field the
modelled code reads; the optional log/abort-signal fields are dropped. -/
structure ToolContext where
  nowMs : Int

/-- `ToolResult` (`tools/types.ts`). -/
structure ToolResult where
  ok : Bool
  output : Json
  error : Option Str

/-- `ToolDefinition` (`tools/types.ts`): the run function may throw, which
is modelled by `Except` with the thrown error's message string. -/
structure ToolDefinition where
  name : Str
  description : Str
  run : Json → ToolContext → Except Str ToolResult

/-- `ToolCall` (`tools/types.ts`). -/
structure ToolCall where
  id : Option Str
  name : Str
  input : Json

/-- Modelled from the spec: `registry.ts` is not among the provided sources
(only its callers and the tools README are). Per §4.4 the registry is a
name-keyed map of tool definitions and `get` looks a definition up by name. -/
abbrev ToolRegistry := List ToolDefinition

/-- Modelled from the spec: registry lookup by tool name (§4.4). -/
def ToolRegistry.get (registry : ToolRegistry) (name : Str) : Option ToolDefinition :=
  List.find? (fun tool => tool.name = name) registry

/-- `ToolRuntime.execute` (`tools/runtime.ts`): look up the tool, run it,
and translate a thrown error into a failure result. The JS `call.id ?? null`
output field is the JSON rendering of the optional call id. -/
def jsonOfOptionalId : Option Str → Json
  | some s => Json.str s
  | none => Json.null

def ToolRuntime.execute (registry : ToolRegistry) (call : ToolCall)
    (context : ToolContext) : ToolResult :=
  match ToolRegistry.get registry call.name with
  | none =>
    { ok := false
      output := Json.obj
        [("callId".toList, jsonOfOptionalId call.id),
         ("tool".toList, Json.str call.name),
         ("status".toList, Json.str ("not_found".toList))]
      error := some ("unknown tool: ".toList ++ call.name) }
  | some tool =>
    match tool.run call.input context with
    | Except.ok result => result
    | Except.error e =>
      { ok := false
        output := Json.obj
          [("callId".toList, jsonOfOptionalId call.id),
           ("tool".toList, Json.str call.name),
           ("status".toList, Json.str ("error".toList))]
        error := some e }

/-! ## Streaming chunking policy (`streaming-chunking.ts`) -/

inductive StreamingCommitScope where
  | any
  | catchup_only
deriving DecidableEq

inductive StreamingChunkingMode where
  | smooth
  | catchup
deriving DecidableEq

/-- `StreamingQueueSnapshot`: queued line count and age (ms) of the oldest
queued line (`null` when unknown / queue empty). -/
structure StreamingQueueSnapshot where
  queuedLines : Nat
  oldestQueuedAgeMs : Option Int
deriving DecidableEq

def ENTER_QUEUE_DEPTH_LINES : Nat := 8
def ENTER_OLDEST_AGE_MS : Int := 120
def EXIT_QUEUE_DEPTH_LINES : Nat := 2
def EXIT_OLDEST_AGE_MS : Int := 40
def EXIT_HOLD_MS : Int := 250
def REENTER_CATCH_UP_HOLD_MS : Int := 250
def SEVERE_QUEUE_DEPTH_LINES : Nat := 64
def SEVERE_OLDEST_AGE_MS : Int := 300

def shouldEnterCatchUp (snapshot : StreamingQueueSnapshot) : Bool :=
  decide (snapshot.queuedLines ≥ ENTER_QUEUE_DEPTH_LINES) ||
    (match snapshot.oldestQueuedAgeMs with
     | some age => decide (age ≥ ENTER_OLDEST_AGE_MS)
     | none => false)

def shouldExitCatchUp (snapshot : StreamingQueueSnapshot) : Bool :=
  decide (snapshot.queuedLines ≤ EXIT_QUEUE_DEPTH_LINES) &&
    (match snapshot.oldestQueuedAgeMs with
     | some age => decide (age ≤ EXIT_OLDEST_AGE_MS)
     | none => false)

def isSevereBacklog (snapshot : StreamingQueueSnapshot) : Bool :=
  decide (snapshot.queuedLines ≥ SEVERE_QUEUE_DEPTH_LINES) ||
    (match snapshot.oldestQueuedAgeMs with
     | some age => decide (age ≥ SEVERE_OLDEST_AGE_MS)
     | none => false)

/-- The mutable private fields of `StreamingChunkingPolicy`. -/
structure StreamingChunkingPolicy where
  mode : StreamingChunkingMode
  belowExitThresholdSinceMs : Option Int
  lastCatchUpExitAtMs : Option Int
deriving DecidableEq

/-- Field initializers of `StreamingChunkingPolicy` (also `reset()`). -/
def StreamingChunkingPolicy.initial : StreamingChunkingPolicy :=
  { mode := StreamingChunkingMode.smooth
    belowExitThresholdSinceMs := none
    lastCatchUpExitAtMs := none }

def StreamingChunkingPolicy.maybeEnterCatchUp (st : StreamingChunkingPolicy)
    (snapshot : StreamingQueueSnapshot) (nowMs : Int) : StreamingChunkingPolicy :=
  if !shouldEnterCatchUp snapshot then st
  else
    let holdActive :=
      match st.lastCatchUpExitAtMs with
      | some t => decide (nowMs - t < REENTER_CATCH_UP_HOLD_MS)
      | none => false
    if holdActive && !isSevereBacklog snapshot then st
    else
      { mode := StreamingChunkingMode.catchup
        belowExitThresholdSinceMs := none
        lastCatchUpExitAtMs := none }

def StreamingChunkingPolicy.maybeExitCatchUp (st : StreamingChunkingPolicy)
    (snapshot : StreamingQueueSnapshot) (nowMs : Int) : StreamingChunkingPolicy :=
  if !shouldExitCatchUp snapshot then { st with belowExitThresholdSinceMs := none }
  else
    match st.belowExitThresholdSinceMs with
    | none => { st with belowExitThresholdSinceMs := some nowMs }
    | some since =>
      if nowMs - since ≥ EXIT_HOLD_MS then
        { mode := StreamingChunkingMode.smooth
          belowExitThresholdSinceMs := none
          lastCatchUpExitAtMs := some nowMs }
      else st

/-- `StreamingChunkingPolicy.decide`: returns the updated policy state and the
number of lines to drain this tick. -/
def StreamingChunkingPolicy.decide (st : StreamingChunkingPolicy)
    (snapshot : StreamingQueueSnapshot) (nowMs : Int)
    (scope : StreamingCommitScope) : StreamingChunkingPolicy × Nat :=
  if snapshot.queuedLines = 0 then
    ({ mode := StreamingChunkingMode.smooth
       belowExitThresholdSinceMs := none
       lastCatchUpExitAtMs :=
         if st.mode = StreamingChunkingMode.catchup then some nowMs
         else st.lastCatchUpExitAtMs }, 0)
  else
    let st1 :=
      if st.mode = StreamingChunkingMode.smooth then
        st.maybeEnterCatchUp snapshot nowMs
      else
        st.maybeExitCatchUp snapshot nowMs
    if scope = StreamingCommitScope.catchup_only ∧
        st1.mode ≠ StreamingChunkingMode.catchup then (st1, 0)
    else
      (st1,
       if st1.mode = StreamingChunkingMode.catchup then max 1 snapshot.queuedLines
       else 1)

/-- One tick fed to the policy: the queue snapshot and the clock reading. -/
structure PolicyStep where
  snapshot : StreamingQueueSnapshot
  nowMs : Int
  scope : StreamingCommitScope
deriving DecidableEq

/-- Run the policy over a list of ticks; the state after the first `n` steps
of a run from the initial state is `runPolicy StreamingChunkingPolicy.initial
(steps.take n)`. -/
def runPolicy (st : StreamingChunkingPolicy) (steps : List PolicyStep) :
    StreamingChunkingPolicy :=
  steps.foldl (fun s step => (s.decide step.snapshot step.nowMs step.scope).1) st

/-! ## Background stream buffers (`tools/builtin/bash.ts`) -/

def MAX_BACKGROUND_CAPTURE_CHARS : Nat := 300000
def DEFAULT_BACKGROUND_READ_CHARS : Nat := 8000
def MAX_BACKGROUND_READ_CHARS : Nat := 120000

/-- `BackgroundStreamState`: the ring buffer of one stdio stream of a
background session. All four quantities are non-negative in the source
(lengths, counts and cursors), so they are modelled as `Nat`. -/
structure BackgroundStreamState where
  buffer : Str
  totalChars : Nat
  droppedChars : Nat
  readCursor : Nat
deriving DecidableEq

def createBackgroundStreamState : BackgroundStreamState :=
  { buffer := [], totalChars := 0, droppedChars := 0, readCursor := 0 }

/-- `appendToBackgroundStream`: append a chunk, then drop the oldest excess
over the 300 000-character cap. -/
def appendToBackgroundStream (stream : BackgroundStreamState) (chunk : Str) :
    BackgroundStreamState :=
  if chunk = [] then stream
  else
    let total := stream.totalChars + chunk.length
    let buffer := stream.buffer ++ chunk
    if buffer.length > MAX_BACKGROUND_CAPTURE_CHARS then
      let dropCount := buffer.length - MAX_BACKGROUND_CAPTURE_CHARS
      { buffer := buffer.drop dropCount
        totalChars := total
        droppedChars := stream.droppedChars + dropCount
        readCursor := stream.readCursor }
    else
      { buffer := buffer
        totalChars := total
        droppedChars := stream.droppedChars
        readCursor := stream.readCursor }

/-- `unreadBackgroundChars`. `Nat` subtraction already truncates at zero,
matching the source's `Math.max(0, …)`. -/
def unreadBackgroundChars (stream : BackgroundStreamState) : Nat :=
  stream.totalChars - max stream.readCursor stream.droppedChars

/-- The record returned by `readBackgroundStream`. -/
structure BackgroundReadResult where
  text : Str
  cursor : Nat
  hasMore : Bool
  dropped : Bool
deriving DecidableEq

/-- `readBackgroundStream`: return the slice starting at
`max(readCursor, droppedChars)`, at most `maxChars` long, and advance the
cursor unless peeking. -/
def readBackgroundStream (stream : BackgroundStreamState) (maxChars : Nat)
    (peek : Bool) : BackgroundStreamState × BackgroundReadResult :=
  let dropped := decide (stream.readCursor < stream.droppedChars)
  let startCursor := max stream.readCursor stream.droppedChars
  let availableChars := stream.totalChars - startCursor
  let readChars := min maxChars availableChars
  let startIndex := startCursor - stream.droppedChars
  let text := if readChars > 0 then (stream.buffer.drop startIndex).take readChars else []
  let nextCursor := startCursor + text.length
  let hasMore := decide (stream.totalChars > nextCursor)
  let stream' := if peek then stream else { stream with readCursor := nextCursor }
  (stream', { text := text, cursor := nextCursor, hasMore := hasMore, dropped := dropped })

/-- One operation on a background stream: an append by the child-output
handler, or a non-peek incremental read. -/
inductive StreamOp where
  | append (chunk : Str)
  | read (maxChars : Nat)
deriving DecidableEq

/-- Run a sequence of stream operations, collecting the text slice returned
by each (non-peek) read. -/
def runStreamOps (stream : BackgroundStreamState) :
    List StreamOp → BackgroundStreamState × List Str
  | [] => (stream, [])
  | StreamOp.append chunk :: rest =>
    runStreamOps (appendToBackgroundStream stream chunk) rest
  | StreamOp.read maxChars :: rest =>
    let (stream', result) := readBackgroundStream stream maxChars false
    let (streamEnd, slices) := runStreamOps stream' rest
    (streamEnd, result.text :: slices)

/-- The total output appended to the stream by a sequence of operations. -/
def streamOpsOutput : List StreamOp → Str
  | [] => []
  | StreamOp.append chunk :: rest => chunk ++ streamOpsOutput rest
  | StreamOp.read _ :: rest => streamOpsOutput rest

/-! ## JavaScript string helpers -/

/-- JavaScript `trim` (the modelled code only meets ASCII whitespace). -/
def jsTrim (s : Str) : Str :=
  (s.dropWhile Char.isWhitespace).reverse.dropWhile Char.isWhitespace |>.reverse

/-- JavaScript `trimEnd`. -/
def jsTrimEnd (s : Str) : Str :=
  s.reverse.dropWhile Char.isWhitespace |>.reverse

/-- Split on `\n`, additionally dropping a `\r` that immediately precedes a
`\n`. This is both `split(/\r?\n/)` and `replace(/\r\n/g, "\n").split("\n")`. -/
def splitCrlf : Str → List Str
  | [] => [[]]
  | '\r' :: '\n' :: rest => [] :: splitCrlf rest
  | '\n' :: rest => [] :: splitCrlf rest
  | c :: rest => (splitCrlf rest).modifyHead (c :: ·)

/-- JavaScript `split("\n")` (no `\r` handling). -/
def splitNl : Str → List Str
  | [] => [[]]
  | '\n' :: rest => [] :: splitNl rest
  | c :: rest => (splitNl rest).modifyHead (c :: ·)

/-- Join a list of lines with `"\n"`. -/
def joinNl (lines : List Str) : Str :=
  List.intercalate ['\n'] lines

/-! ## Patch parser and applier (`tools/builtin/file-ops.ts`) -/

def PATCH_BEGIN_MARKER : Str := "*** Begin Patch".toList
def PATCH_END_MARKER : Str := "*** End Patch".toList
def PATCH_ADD_FILE_MARKER : Str := "*** Add File: ".toList
def PATCH_DELETE_FILE_MARKER : Str := "*** Delete File: ".toList
def PATCH_UPDATE_FILE_MARKER : Str := "*** Update File: ".toList
def PATCH_MOVE_TO_MARKER : Str := "*** Move to: ".toList
def PATCH_EOF_MARKER : Str := "*** End of File".toList
def PATCH_CHANGE_CONTEXT_MARKER : Str := "@@ ".toList
def PATCH_EMPTY_CHANGE_CONTEXT_MARKER : Str := "@@".toList

structure UpdateFileChunk where
  changeContext : Option Str
  oldLines : List Str
  newLines : List Str
  isEndOfFile : Bool
deriving DecidableEq

inductive PatchHunk where
  | add_file (filePath : Str) (contents : Str)
  | delete_file (filePath : Str)
  | update_file (filePath : Str) (movePath : Option Str) (chunks : List UpdateFileChunk)
deriving DecidableEq

structure ReplacementRecord where
  startIndex : Nat
  oldLength : Nat
  newLines : List Str
deriving DecidableEq

def natToStr (n : Nat) : Str := (toString n).toList

/-- The body loop of `parseUpdateFileChunk`: walk the chunk lines,
accumulating old/new lines until the EOF marker, an unmarked line, or the
end of input. Returns old lines, new lines, the EOF flag and the number of
lines consumed. -/
def parseChunkBody (lineNumber : Nat) :
    List Str → List Str → List Str → Nat →
    Except Str (List Str × List Str × Bool × Nat)
  | [], oldAcc, newAcc, parsedLines =>
    Except.ok (oldAcc, newAcc, false, parsedLines)
  | line :: rest, oldAcc, newAcc, parsedLines =>
    if line = PATCH_EOF_MARKER then
      if parsedLines = 0 then
        Except.error (("invalid hunk at line ".toList ++ natToStr (lineNumber + 1)) ++
          ", Update hunk does not contain any lines".toList)
      else
        Except.ok (oldAcc, newAcc, true, parsedLines + 1)
    else
      match line with
      | [] => parseChunkBody lineNumber rest (oldAcc ++ [[]]) (newAcc ++ [[]]) (parsedLines + 1)
      | marker :: lineRest =>
        if marker = ' ' then
          parseChunkBody lineNumber rest (oldAcc ++ [lineRest]) (newAcc ++ [lineRest])
            (parsedLines + 1)
        else if marker = '+' then
          parseChunkBody lineNumber rest oldAcc (newAcc ++ [lineRest]) (parsedLines + 1)
        else if marker = '-' then
          parseChunkBody lineNumber rest (oldAcc ++ [lineRest]) newAcc (parsedLines + 1)
        else if parsedLines = 0 then
          Except.error (("invalid hunk at line ".toList ++ natToStr (lineNumber + 1)) ++
            ", Unexpected line found in update hunk: '".toList ++ line ++
            "'. Every line should start with ' ' (context line), '+' (added line), or '-' (removed line)".toList)
        else
          Except.ok (oldAcc, newAcc, false, parsedLines)

/-- `parseUpdateFileChunk`. -/
def parseUpdateFileChunk (lines : List Str) (lineNumber : Nat)
    (allowMissingContext : Bool) : Except Str (UpdateFileChunk × Nat) :=
  if lines = [] then
    Except.error (("invalid hunk at line ".toList ++ natToStr lineNumber) ++
      ", Update hunk does not contain any lines".toList)
  else
    let first := lines.headD []
    let parsedHeader : Except Str (Option Str × Nat) :=
      if first = PATCH_EMPTY_CHANGE_CONTEXT_MARKER then
        Except.ok (none, 1)
      else if PATCH_CHANGE_CONTEXT_MARKER.isPrefixOf first then
        Except.ok (some (first.drop PATCH_CHANGE_CONTEXT_MARKER.length), 1)
      else if !allowMissingContext then
        Except.error (("invalid hunk at line ".toList ++ natToStr lineNumber) ++
          ", Expected update hunk to start with a @@ context marker, got: '".toList ++
          first ++ "'".toList)
      else
        Except.ok (none, 0)
    match parsedHeader with
    | Except.error e => Except.error e
    | Except.ok (changeContext, startIndex) =>
      if startIndex ≥ lines.length then
        Except.error (("invalid hunk at line ".toList ++ natToStr (lineNumber + 1)) ++
          ", Update hunk does not contain any lines".toList)
      else
        match parseChunkBody lineNumber (lines.drop startIndex) [] [] 0 with
        | Except.error e => Except.error e
        | Except.ok (oldLines, newLines, isEndOfFile, parsedLines) =>
          Except.ok
            ({ changeContext := changeContext
               oldLines := oldLines
               newLines := newLines
               isEndOfFile := isEndOfFile }, parsedLines + startIndex)

/-- The `+`-line collection loop of the Add File branch of
`parseOnePatchHunk`. -/
def parseAddFileLines : List Str → Str × Nat
  | [] => ([], 0)
  | line :: rest =>
    match line with
    | '+' :: lineRest =>
      let (contents, parsed) := parseAddFileLines rest
      (lineRest ++ ['\n'] ++ contents, parsed + 1)
    | _ => ([], 0)

/-- The chunk-collection loop of the Update File branch of
`parseOnePatchHunk`. `fuel` bounds the loop; every successful iteration
consumes at least one line, so the initial line count suffices. -/
def parseUpdateChunks (updatePath : Str) (hunkLineNumber : Nat) :
    Nat → List Str → Nat → List UpdateFileChunk →
    Except Str (List UpdateFileChunk × Nat)
  | _, [], parsedLines, chunks => Except.ok (chunks, parsedLines)
  | 0, _ :: _, parsedLines, chunks => Except.ok (chunks, parsedLines)
  | fuel + 1, next :: rest, parsedLines, chunks =>
    if jsTrim next = [] then
      parseUpdateChunks updatePath hunkLineNumber fuel rest (parsedLines + 1) chunks
    else if ("***".toList).isPrefixOf next then
      Except.ok (chunks, parsedLines)
    else
      match parseUpdateFileChunk (next :: rest) (hunkLineNumber + parsedLines)
          (chunks.length = 0) with
      | Except.error e => Except.error e
      | Except.ok (chunk, chunkLines) =>
        parseUpdateChunks updatePath hunkLineNumber fuel
          ((next :: rest).drop chunkLines) (parsedLines + chunkLines)
          (chunks ++ [chunk])

/-- `parseOnePatchHunk`. -/
def parseOnePatchHunk (lines : List Str) (lineNumber : Nat) :
    Except Str (PatchHunk × Nat) :=
  let firstLine := jsTrim (lines.headD [])
  if PATCH_ADD_FILE_MARKER.isPrefixOf firstLine then
    let addPath := firstLine.drop PATCH_ADD_FILE_MARKER.length
    let (contents, bodyLines) := parseAddFileLines (lines.drop 1)
    Except.ok (PatchHunk.add_file addPath contents, bodyLines + 1)
  else if PATCH_DELETE_FILE_MARKER.isPrefixOf firstLine then
    Except.ok (PatchHunk.delete_file (firstLine.drop PATCH_DELETE_FILE_MARKER.length), 1)
  else if PATCH_UPDATE_FILE_MARKER.isPrefixOf firstLine then
    let updatePath := firstLine.drop PATCH_UPDATE_FILE_MARKER.length
    let afterHeader := lines.drop 1
    let hasMove :=
      match afterHeader.head? with
      | some maybeMove => PATCH_MOVE_TO_MARKER.isPrefixOf maybeMove
      | none => false
    let movePath :=
      if hasMove then some ((afterHeader.headD []).drop PATCH_MOVE_TO_MARKER.length)
      else none
    let remaining := if hasMove then afterHeader.drop 1 else afterHeader
    let parsedSoFar := if hasMove then 2 else 1
    match parseUpdateChunks updatePath lineNumber (remaining.length + 1) remaining
        parsedSoFar [] with
    | Except.error e => Except.error e
    | Except.ok (chunks, parsedLines) =>
      if chunks.length = 0 then
        Except.error (("invalid hunk at line ".toList ++ natToStr lineNumber) ++
          ", Update file hunk for path '".toList ++ updatePath ++ "' is empty".toList)
      else
        Except.ok (PatchHunk.update_file updatePath movePath chunks, parsedLines)
  else
    Except.error (("invalid hunk at line ".toList ++ natToStr lineNumber) ++
      ", '".toList ++ firstLine ++
      "' is not a valid hunk header. Valid hunk headers: '*** Add File: {path}', '*** Delete File: {path}', '*** Update File: {path}'".toList)

/-- `checkPatchBoundariesStrict`. -/
def checkPatchBoundariesStrict (lines : List Str) : Except Str (List Str) :=
  let first := jsTrim (lines.headD [])
  let last := jsTrim (lines.getLastD [])
  if first = PATCH_BEGIN_MARKER ∧ last = PATCH_END_MARKER then
    Except.ok lines
  else if first ≠ PATCH_BEGIN_MARKER then
    Except.error ("invalid patch: The first line of the patch must be '*** Begin Patch'".toList)
  else
    Except.error ("invalid patch: The last line of the patch must be '*** End Patch'".toList)

/-- `checkPatchBoundaries`: strict check, with a tolerated `<<EOF` / `EOF`
wrapping pair. -/
def checkPatchBoundaries (lines : List Str) : Except Str (List Str) :=
  match checkPatchBoundariesStrict lines with
  | Except.ok ls => Except.ok ls
  | Except.error strictError =>
    if lines.length ≥ 4 then
      let first := lines.headD []
      let last := lines.getLastD []
      if (first = "<<EOF".toList ∨ first = ("<<'EOF'").toList ∨
            first = "<<\"EOF\"".toList) ∧ ("EOF".toList).isSuffixOf last then
        checkPatchBoundariesStrict (lines.drop 1).dropLast
      else
        Except.error strictError
    else
      Except.error strictError

/-- The hunk-collection loop of `parsePatchText`, fuelled like
`parseUpdateChunks`. -/
def parsePatchHunksLoop : Nat → List Str → Nat → List PatchHunk →
    Except Str (List PatchHunk)
  | _, [], _, hunks => Except.ok hunks
  | 0, _ :: _, _, hunks => Except.ok hunks
  | fuel + 1, remaining, lineNumber, hunks =>
    match parseOnePatchHunk remaining lineNumber with
    | Except.error e => Except.error e
    | Except.ok (hunk, parsedLines) =>
      parsePatchHunksLoop fuel (remaining.drop parsedLines)
        (lineNumber + parsedLines) (hunks ++ [hunk])

/-- `parsePatchText`. -/
def parsePatchText (patchText : Str) : Except Str (List PatchHunk) :=
  let rawLines := splitCrlf (jsTrim patchText)
  match checkPatchBoundaries rawLines with
  | Except.error e => Except.error e
  | Except.ok patchLines =>
    let body := (patchLines.drop 1).dropLast
    parsePatchHunksLoop (body.length + 1) body 2 []

/-- The four fuzzy-match tiers of `matchesPattern`. -/
inductive PatchMatchMode where
  | exact
  | trim_end
  | trim
  | normalize
deriving DecidableEq

/-- `normalizePatchComparison`: trim, then fold Unicode dashes, quotes and
spaces to ASCII. -/
def normalizePatchChar (char : Char) : Char :=
  if char = '‐' ∨ char = '‑' ∨ char = '‒' ∨ char = '–' ∨
      char = '—' ∨ char = '―' ∨ char = '−' then '-'
  else if char = '‘' ∨ char = '’' ∨ char = '‚' ∨ char = '‛' then '\''
  else if char = '“' ∨ char = '”' ∨ char = '„' ∨ char = '‟' then '\"'
  else if char = ' ' ∨ char = ' ' ∨ char = ' ' ∨ char = ' ' ∨
      char = ' ' ∨ char = ' ' ∨ char = ' ' ∨ char = ' ' ∨
      char = ' ' ∨ char = ' ' ∨ char = ' ' ∨ char = ' ' ∨
      char = '　' then ' '
  else char

def normalizePatchComparison (value : Str) : Str :=
  (jsTrim value).map normalizePatchChar

/-- `matchesPattern`: does `pattern` match `lines` at `start` under `mode`?
Out-of-range lines read as the empty string, as with the source's `?? ""`. -/
def matchesPattern (lines : List Str) (pattern : List Str) (start : Nat)
    (mode : PatchMatchMode) : Bool :=
  (List.range pattern.length).all fun index =>
    let line := lines.getD (start + index) []
    let expected := pattern.getD index []
    match mode with
    | PatchMatchMode.exact => line = expected
    | PatchMatchMode.trim_end => jsTrimEnd line = jsTrimEnd expected
    | PatchMatchMode.trim => jsTrim line = jsTrim expected
    | PatchMatchMode.normalize => normalizePatchComparison line = normalizePatchComparison expected

/-- `seekSequence`: try the four modes in order, each scanning every start
position from `fromIndex` to `maxStart`. -/
def seekSequence (lines : List Str) (pattern : List Str) (start : Nat)
    (eof : Bool) : Option Nat :=
  if pattern.length = 0 then some start
  else if pattern.length > lines.length then none
  else
    let maxStart := lines.length - pattern.length
    let searchStart :=
      if eof ∧ lines.length ≥ pattern.length then lines.length - pattern.length
      else start
    if searchStart > maxStart then none
    else
      let positions := List.range' searchStart (maxStart + 1 - searchStart)
      match positions.find? (fun i => matchesPattern lines pattern i PatchMatchMode.exact) with
      | some i => some i
      | none =>
        match positions.find? (fun i => matchesPattern lines pattern i PatchMatchMode.trim_end) with
        | some i => some i
        | none =>
          match positions.find? (fun i => matchesPattern lines pattern i PatchMatchMode.trim) with
          | some i => some i
          | none =>
            positions.find? (fun i => matchesPattern lines pattern i PatchMatchMode.normalize)

/-- The per-chunk replacement derivation loop of `computePatchReplacements`
(before the final sort). -/
def computeReplacementsLoop (originalLines : List Str) (filePath : Str) :
    List UpdateFileChunk → Nat → Except Str (List ReplacementRecord)
  | [], _ => Except.ok []
  | chunk :: chunksRest, lineIndex =>
    let contextStep : Except Str Nat :=
      match chunk.changeContext with
      | some context =>
        if context = [] then Except.ok lineIndex
        else
          match seekSequence originalLines [context] lineIndex false with
          | none =>
            Except.error ("Failed to find context '".toList ++ context ++
              "' in ".toList ++ filePath)
          | some contextIndex => Except.ok (contextIndex + 1)
      | none => Except.ok lineIndex
    match contextStep with
    | Except.error e => Except.error e
    | Except.ok lineIndex1 =>
      if chunk.oldLines = [] then
        let insertionIndex :=
          if originalLines ≠ [] ∧ originalLines.getLastD [] = [] then
            originalLines.length - 1
          else originalLines.length
        match computeReplacementsLoop originalLines filePath chunksRest lineIndex1 with
        | Except.error e => Except.error e
        | Except.ok rest =>
          Except.ok (ReplacementRecord.mk insertionIndex 0 chunk.newLines :: rest)
      else
        let firstTry := seekSequence originalLines chunk.oldLines lineIndex1 chunk.isEndOfFile
        let retried :=
          match firstTry with
          | some i => some (i, chunk.oldLines, chunk.newLines)
          | none =>
            if chunk.oldLines ≠ [] ∧ chunk.oldLines.getLastD [] = [] then
              let pattern := chunk.oldLines.dropLast
              let newSlice :=
                if chunk.newLines ≠ [] ∧ chunk.newLines.getLastD [] = [] then
                  chunk.newLines.dropLast
                else chunk.newLines
              match seekSequence originalLines pattern lineIndex1 chunk.isEndOfFile with
              | some i => some (i, pattern, newSlice)
              | none => none
            else none
        match retried with
        | none =>
          Except.error ("Failed to find expected lines in ".toList ++ filePath ++
            ":\n".toList ++ joinNl chunk.oldLines)
        | some (foundAt, pattern, newSlice) =>
          match computeReplacementsLoop originalLines filePath chunksRest
              (foundAt + pattern.length) with
          | Except.error e => Except.error e
          | Except.ok rest =>
            Except.ok (ReplacementRecord.mk foundAt pattern.length newSlice :: rest)

/-- `computePatchReplacements`: derive replacements for every chunk, then
sort them by start index (a stable sort, like the JS numeric-comparator sort). -/
def computePatchReplacements (originalLines : List Str) (filePath : Str)
    (chunks : List UpdateFileChunk) : Except Str (List ReplacementRecord) :=
  match computeReplacementsLoop originalLines filePath chunks 0 with
  | Except.error e => Except.error e
  | Except.ok replacements =>
    Except.ok (replacements.insertionSort (fun l r => l.startIndex ≤ r.startIndex))

/-- `applyReplacements`: splice each replacement, in reverse index order. -/
def applyReplacements (lines : List Str) (replacements : List ReplacementRecord) :
    List Str :=
  replacements.reverse.foldl
    (fun next current =>
      next.take current.startIndex ++ current.newLines ++
        next.drop (current.startIndex + current.oldLength))
    lines

/-- `deriveUpdatedFileContents`, with the target file's current contents
passed in place of the source's `fs.readFile` of the target path. -/
def deriveUpdatedFileContents (targetPath : Str) (originalContents : Str)
    (chunks : List UpdateFileChunk) : Except Str Str :=
  let splitLines := splitNl originalContents
  let originalLines :=
    if splitLines.length > 0 ∧ splitLines.getLastD [] = [] then splitLines.dropLast
    else splitLines
  match computePatchReplacements originalLines targetPath chunks with
  | Except.error e => Except.error e
  | Except.ok replacements =>
    let updatedLines := applyReplacements originalLines replacements
    let finalLines :=
      if updatedLines.length = 0 ∨ updatedLines.getLastD [] ≠ [] then updatedLines ++ [[]]
      else updatedLines
    Except.ok (joinNl finalLines)

/-- The file system visible to the patch applier, as a finite map from
resolved paths to file contents. -/
abbrev FileSystem := List (Str × Str)

def fsRead (fs : FileSystem) (path : Str) : Option Str :=
  (List.find? (fun entry => entry.1 = path) fs).map (fun entry => entry.2)

def fsWrite (fs : FileSystem) (path : Str) (contents : Str) : FileSystem :=
  if (List.find? (fun entry => entry.1 = path) fs).isSome then
    List.map (fun entry => if entry.1 = path then (path, contents) else entry) fs
  else
    List.append fs [(path, contents)]

def fsRemove (fs : FileSystem) (path : Str) : FileSystem :=
  List.filter (fun entry => entry.1 ≠ path) fs

structure PatchSummary where
  added : List Str
  modified : List Str
  deleted : List Str
deriving DecidableEq

/-- `applyPatchHunks` over the modelled file system. `resolvePath` stands for
`path.resolve(cwd, ·)`; directory creation has no observable effect in this
model. -/
def applyPatchHunksLoop (resolvePath : Str → Str) :
    List PatchHunk → FileSystem → PatchSummary →
    Except Str (FileSystem × PatchSummary)
  | [], fs, summary => Except.ok (fs, summary)
  | PatchHunk.add_file filePath contents :: rest, fs, summary =>
    let destination := resolvePath filePath
    applyPatchHunksLoop resolvePath rest (fsWrite fs destination contents)
      { summary with added := summary.added ++ [destination] }
  | PatchHunk.delete_file filePath :: rest, fs, summary =>
    let target := resolvePath filePath
    if (fsRead fs target).isSome then
      applyPatchHunksLoop resolvePath rest (fsRemove fs target)
        { summary with deleted := summary.deleted ++ [target] }
    else
      Except.error ("Failed to delete file ".toList ++ target ++
        ": no such file".toList)
  | PatchHunk.update_file filePath movePath chunks :: rest, fs, summary =>
    let source := resolvePath filePath
    match fsRead fs source with
    | none =>
      Except.error ("Failed to read file to update ".toList ++ source ++
        ": no such file".toList)
    | some originalContents =>
      match deriveUpdatedFileContents source originalContents chunks with
      | Except.error e => Except.error e
      | Except.ok newContents =>
        match movePath with
        | some movePathValue =>
          let destination := resolvePath movePathValue
          applyPatchHunksLoop resolvePath rest
            (fsRemove (fsWrite fs destination newContents) source)
            { summary with modified := summary.modified ++ [destination] }
        | none =>
          applyPatchHunksLoop resolvePath rest (fsWrite fs source newContents)
            { summary with modified := summary.modified ++ [source] }

def applyPatchHunks (hunks : List PatchHunk) (resolvePath : Str → Str)
    (fs : FileSystem) : Except Str (FileSystem × PatchSummary) :=
  if hunks.length = 0 then Except.error ("No files were modified.".toList)
  else applyPatchHunksLoop resolvePath hunks fs
    { added := [], modified := [], deleted := [] }

/-- `formatPatchSummary`. -/
def formatPatchSummary (summary : PatchSummary) : Str :=
  joinNl (["Success. Updated the following files:".toList] ++
    summary.added.map (fun filePath => "A ".toList ++ filePath) ++
    summary.modified.map (fun filePath => "M ".toList ++ filePath) ++
    summary.deleted.map (fun filePath => "D ".toList ++ filePath))

/-- The pure pipeline of the `apply_patch` tool's run function: trim and
parse the patch text, apply the hunks, format the summary. -/
def applyPatchPipeline (patchText : Str) (resolvePath : Str → Str)
    (fs : FileSystem) : Except Str (FileSystem × Str) :=
  if jsTrim patchText = [] then
    Except.error ("apply_patch requires non-empty `input` patch text.".toList)
  else
    match parsePatchText (jsTrim patchText) with
    | Except.error e => Except.error e
    | Except.ok hunks =>
      match applyPatchHunks hunks resolvePath fs with
      | Except.error e => Except.error e
      | Except.ok (fs', summary) => Except.ok (fs', formatPatchSummary summary)

/-! ## Stateful shell cwd/env capture (`tools/builtin/bash.ts`) -/

/-- A JavaScript plain object used as a string map: an association list in
insertion order. Assigning an existing key updates it in place; a new key is
appended. -/
abbrev EnvMap := List (Str × Str)

def envSet (env : EnvMap) (key value : Str) : EnvMap :=
  if (List.find? (fun entry => entry.1 = key) env).isSome then
    List.map (fun entry => if entry.1 = key then (key, value) else entry) env
  else
    List.append env [(key, value)]

/-- JavaScript object spread `{ ...base, ...overrides }`. -/
def mergeEnv (base overrides : EnvMap) : EnvMap :=
  overrides.foldl (fun acc entry => envSet acc entry.1 entry.2) base

/-- `parseEnvironmentLines`: split each line on its first `=`, keeping
trimmed non-empty keys. -/
def parseEnvironmentLines (lines : List Str) : EnvMap :=
  lines.foldl
    (fun env line =>
      match line.findIdx? (fun c => c = '=') with
      | none => env
      | some separatorIndex =>
        if separatorIndex = 0 then env
        else
          let key := jsTrim (line.take separatorIndex)
          if key = [] then env
          else envSet env key (line.drop (separatorIndex + 1)))
    []

/-- JavaScript `Array.prototype.indexOf(target, fromIndex)` (non-negative
`fromIndex`, as in all call sites), as an optional index. -/
def idxOfFrom (lines : List Str) (target : Str) (fromIndex : Nat) : Option Nat :=
  ((lines.drop fromIndex).findIdx? (fun line => line = target)).map
    (fun i => fromIndex + i)

structure ParsedStateCapture where
  cleanedStdout : Str
  cwdAfter : Option Str
  envAfter : Option EnvMap
  stateCaptured : Bool

/-- Strip trailing newlines: `replace(/\n+$/g, "")`. -/
def trimTrailingNewlines (s : Str) : Str :=
  (s.reverse.dropWhile (fun c => c = '\n')).reverse

/-- The four marker-line positions of `parseShellStateCapture`, each found
by `indexOf` from just past the previous one. The source's
presence-and-ordering check (`index ≥ 0` for all four and strictly
increasing) succeeds exactly when all four chained searches do. -/
def shellMarkerIndices (stdout : Str) (markerPrefix : Str) :
    Option (Nat × Nat × Nat × Nat) :=
  let lines := splitCrlf stdout
  match idxOfFrom lines (markerPrefix ++ "CWD_START".toList) 0 with
  | none => none
  | some cwdStartIndex =>
    match idxOfFrom lines (markerPrefix ++ "CWD_END".toList) (cwdStartIndex + 1) with
    | none => none
    | some cwdEndIndex =>
      match idxOfFrom lines (markerPrefix ++ "ENV_START".toList) (cwdEndIndex + 1) with
      | none => none
      | some envStartIndex =>
        match idxOfFrom lines (markerPrefix ++ "ENV_END".toList) (envStartIndex + 1) with
        | none => none
        | some envEndIndex => some (cwdStartIndex, cwdEndIndex, envStartIndex, envEndIndex)

/-- `parseShellStateCapture`: locate the four marker lines in order, extract
the cwd and environment between them, and strip the marker block from the
stdout. -/
def parseShellStateCapture (stdout : Str) (markerPrefix : Str) : ParsedStateCapture :=
  let lines := splitCrlf stdout
  match shellMarkerIndices stdout markerPrefix with
  | none =>
    { cleanedStdout := stdout, cwdAfter := none, envAfter := none, stateCaptured := false }
  | some (cwdStartIndex, cwdEndIndex, envStartIndex, envEndIndex) =>
    let cwdAfter := jsTrim (joinNl ((lines.take cwdEndIndex).drop (cwdStartIndex + 1)))
    let envLines := (lines.take envEndIndex).drop (envStartIndex + 1)
    let envAfter := parseEnvironmentLines envLines
    let cleanedLines := lines.take cwdStartIndex ++ lines.drop (envEndIndex + 1)
    let cleanedStdout := trimTrailingNewlines (joinNl cleanedLines)
    { cleanedStdout := cleanedStdout
      cwdAfter := if cwdAfter = [] then none else some cwdAfter
      envAfter := some envAfter
      stateCaptured := true }

/-- The process-wide `bashSessionState` baseline. -/
structure BashSessionState where
  cwd : Str
  env : EnvMap

/-- The foreground-path state handling of `bashTool.run`: compute the
launch cwd/env from the overrides (lines 1488–1497), then fold the parsed
state capture of the command's stdout back into the baseline (lines
1689–1697). `processCwd` stands for `process.cwd()`. Returns the new
baseline together with the parse result. -/
def bashForegroundUpdate (state : BashSessionState) (cwdOverride : Str)
    (envOverrides : EnvMap) (processCwd : Str) (processStdout : Str)
    (markerPrefix : Str) : BashSessionState × ParsedStateCapture :=
  let cwdBefore :=
    if cwdOverride ≠ [] then cwdOverride
    else if state.cwd ≠ [] then state.cwd
    else processCwd
  let envBefore := mergeEnv state.env envOverrides
  let parsed := parseShellStateCapture processStdout markerPrefix
  let cwdFinal :=
    match parsed.cwdAfter with
    | some cwdAfter => cwdAfter
    | none => cwdBefore
  let envFinal :=
    match parsed.envAfter with
    | some envAfter => envAfter
    | none => envBefore
  ({ cwd := cwdFinal, env := envFinal }, parsed)

/-- The launch environment (`envBefore`) of a foreground bash call. -/
def bashEnvBefore (state : BashSessionState) (envOverrides : EnvMap) : EnvMap :=
  mergeEnv state.env envOverrides

/-- The launch cwd (`cwdBefore`) of a foreground bash call. -/
def bashCwdBefore (state : BashSessionState) (cwdOverride : Str)
    (processCwd : Str) : Str :=
  if cwdOverride ≠ [] then cwdOverride
  else if state.cwd ≠ [] then state.cwd
  else processCwd

/-! ## Anchored compaction engine (`compaction/types.ts`, `compaction/summarizer.ts`) -/

inductive CompactEventType where
  | user_msg
  | assistant_msg
  | tool_result
  | file_read
  | file_write_patch
  | command_run
  | error_observed
  | decision
  | plan_step
deriving DecidableEq

/-- `CompactEvent`. The optional turn id and provider tag are dropped: no
modelled function reads them. The payload is an opaque JSON value here. -/
structure CompactEvent where
  index : Int
  at_iso : Str
  type : CompactEventType
  payload : Json

structure ChatMessage where
  role : Str
  text : Str

structure SummaryDecision where
  at_iso : Option Str
  decision : Str
  rationale : Str
  tradeoffs : Option Str

structure SummaryArtifacts where
  files_touched : List Str
  files_created : List Str
  commands_run : List Str
  errors_seen : List Str
  external_endpoints : List Str

/-- `SummaryState` (the constant `schema_version: 1` field is dropped). -/
structure SummaryState where
  intent : Str
  constraints : List Str
  decisions : List SummaryDecision
  progress : List Str
  open_questions : List Str
  next_steps : List Str
  artifacts : SummaryArtifacts
  updated_at_iso : Str

/-- The caller-supplied callbacks of the engine, plus the ambient pieces the
engine imports from outside the provided sources: the event-to-message
projection and artifact extraction of `compaction/events.ts` (whose file is
not among the sources; only its callers are), and the wall clock / ISO
timestamp parsing of the JS `Date` built-ins. -/
structure CompactionEnv where
  estimateHistoryTokens : List ChatMessage → Int
  summarizeDelta : SummaryState → List CompactEvent → SummaryState
  compactEventToChatMessage : CompactEvent → Option ChatMessage
  extractArtifactsFromEvents : List CompactEvent → SummaryArtifacts
  parseIsoTimestamp : Str → Option Str
  nowIso : Str

/-- JavaScript `toLowerCase` (ASCII; the summary merge only compares). -/
def jsToLower (s : Str) : Str := s.map Char.toLower

/-- `normalizeStringList` on an already string-typed list: trim, drop
empties, deduplicate case-insensitively keeping first occurrences. -/
def normalizeStringListLoop : List Str → List Str → List Str
  | [], output => output
  | item :: rest, output =>
    let trimmed := jsTrim item
    if trimmed = [] then normalizeStringListLoop rest output
    else if output.any (fun existing => jsToLower existing = jsToLower trimmed) then
      normalizeStringListLoop rest output
    else normalizeStringListLoop rest (output ++ [trimmed])

def normalizeStringList (value : List Str) : List Str :=
  normalizeStringListLoop value []

/-- `readIso` on a string value: trim, then parse/re-render through the
modelled `Date.parse`/`toISOString` pair. -/
def readIsoStr (env : CompactionEnv) (value : Str) : Option Str :=
  let trimmed := jsTrim value
  if trimmed = [] then none else env.parseIsoTimestamp trimmed

/-- `normalizeSummaryState` on an already well-typed summary state. -/
def normalizeSummaryState (env : CompactionEnv) (s : SummaryState) : SummaryState :=
  let decisions :=
    (s.decisions.map (fun item =>
      { at_iso := item.at_iso.bind (readIsoStr env)
        decision := jsTrim item.decision
        rationale := jsTrim item.rationale
        tradeoffs :=
          match item.tradeoffs with
          | some t => if jsTrim t = [] then none else some (jsTrim t)
          | none => none } )).filter
      (fun item => item.decision ≠ [] ∧ item.rationale ≠ [])
  { intent := jsTrim s.intent
    constraints := normalizeStringList s.constraints
    decisions := decisions
    progress := normalizeStringList s.progress
    open_questions := normalizeStringList s.open_questions
    next_steps := normalizeStringList s.next_steps
    artifacts :=
      { files_touched := normalizeStringList s.artifacts.files_touched
        files_created := normalizeStringList s.artifacts.files_created
        commands_run := normalizeStringList s.artifacts.commands_run
        errors_seen := normalizeStringList s.artifacts.errors_seen
        external_endpoints := normalizeStringList s.artifacts.external_endpoints }
    updated_at_iso := (readIsoStr env s.updated_at_iso).getD env.nowIso }

def normalizeArtifacts (value : SummaryArtifacts) : SummaryArtifacts :=
  { files_touched := normalizeStringList value.files_touched
    files_created := normalizeStringList value.files_created
    commands_run := normalizeStringList value.commands_run
    errors_seen := normalizeStringList value.errors_seen
    external_endpoints := normalizeStringList value.external_endpoints }

def emptyArtifacts : SummaryArtifacts :=
  { files_touched := [], files_created := [], commands_run := []
    errors_seen := [], external_endpoints := [] }

/-- `mergeDecisions`: union keyed on lowercased `(decision, rationale)`,
previous first. -/
def mergeDecisions (previous candidate : List SummaryDecision) : List SummaryDecision :=
  ((previous ++ candidate).foldl
    (fun acc d =>
      let key := jsToLower d.decision ++ "|".toList ++ jsToLower d.rationale
      if acc.2.contains key then acc else (acc.1 ++ [d], acc.2 ++ [key]))
    ([], [])).1

/-- `appendDedup`: append incoming items that are non-blank and not already
present case-insensitively. -/
def appendDedup (existing incoming : List Str) : List Str :=
  incoming.foldl
    (fun merged item =>
      if jsTrim item = [] then merged
      else if merged.any (fun current => jsToLower current = jsToLower item) then merged
      else merged ++ [item])
    existing

/-- `isSummaryEffectivelyEmpty`. -/
def isSummaryEffectivelyEmpty (env : CompactionEnv) (summaryState : SummaryState) : Bool :=
  let summary := normalizeSummaryState env summaryState
  summary.intent.isEmpty && summary.constraints.isEmpty && summary.decisions.isEmpty &&
    summary.progress.isEmpty && summary.open_questions.isEmpty &&
    summary.next_steps.isEmpty && summary.artifacts.files_touched.isEmpty &&
    summary.artifacts.files_created.isEmpty && summary.artifacts.commands_run.isEmpty &&
    summary.artifacts.errors_seen.isEmpty && summary.artifacts.external_endpoints.isEmpty

/-- `mergeSummaryStates`. The engine never passes `nowIso`, so the merged
state is stamped with the ambient clock. -/
def mergeSummaryStates (env : CompactionEnv) (previous candidate : SummaryState)
    (deltaArtifactAdditions : Option SummaryArtifacts) (nowIso : Option Str) :
    SummaryState :=
  let previousN := normalizeSummaryState env previous
  let candidateN := normalizeSummaryState env candidate
  let deltaArtifacts :=
    match deltaArtifactAdditions with
    | some a => normalizeArtifacts a
    | none => emptyArtifacts
  let now := nowIso.getD env.nowIso
  { intent := if candidateN.intent ≠ [] then candidateN.intent else previousN.intent
    constraints := appendDedup previousN.constraints candidateN.constraints
    decisions := mergeDecisions previousN.decisions candidateN.decisions
    progress := appendDedup previousN.progress candidateN.progress
    open_questions := appendDedup previousN.open_questions candidateN.open_questions
    next_steps := appendDedup previousN.next_steps candidateN.next_steps
    artifacts :=
      { files_touched := appendDedup
          (appendDedup previousN.artifacts.files_touched candidateN.artifacts.files_touched)
          deltaArtifacts.files_touched
        files_created := appendDedup
          (appendDedup previousN.artifacts.files_created candidateN.artifacts.files_created)
          deltaArtifacts.files_created
        commands_run := appendDedup
          (appendDedup previousN.artifacts.commands_run candidateN.artifacts.commands_run)
          deltaArtifacts.commands_run
        errors_seen := appendDedup
          (appendDedup previousN.artifacts.errors_seen candidateN.artifacts.errors_seen)
          deltaArtifacts.errors_seen
        external_endpoints := appendDedup
          (appendDedup previousN.artifacts.external_endpoints
            candidateN.artifacts.external_endpoints)
          deltaArtifacts.external_endpoints }
    updated_at_iso := now }

/-- JavaScript `slice(-n)`: the last `n` elements. -/
def takeLast (n : Nat) (l : List Str) : List Str := l.drop (l.length - n)

def takeLastDecisions (n : Nat) (l : List SummaryDecision) : List SummaryDecision :=
  l.drop (l.length - n)

/-- `renderSummaryStateForPrompt`. -/
def renderSummaryStateForPrompt (env : CompactionEnv) (summaryState : SummaryState) : Str :=
  let normalized := normalizeSummaryState env summaryState
  let intentLine := "intent: ".toList ++
    (if normalized.intent ≠ [] then normalized.intent else "(unspecified)".toList)
  let constraintLines :=
    if normalized.constraints.length > 0 then
      "constraints:".toList ::
        (takeLast 10 normalized.constraints).map (fun item => "- ".toList ++ item)
    else []
  let decisionLines :=
    if normalized.decisions.length > 0 then
      "decisions:".toList ::
        (takeLastDecisions 8 normalized.decisions).map
          (fun item => "- ".toList ++ item.decision ++ " | rationale: ".toList ++ item.rationale)
    else []
  let progressLines :=
    if normalized.progress.length > 0 then
      "progress:".toList ::
        (takeLast 12 normalized.progress).map (fun item => "- ".toList ++ item)
    else []
  let openQuestionLines :=
    if normalized.open_questions.length > 0 then
      "open questions:".toList ::
        (takeLast 8 normalized.open_questions).map (fun item => "- ".toList ++ item)
    else []
  let nextStepLines :=
    if normalized.next_steps.length > 0 then
      "next steps:".toList ::
        (takeLast 8 normalized.next_steps).map (fun item => "- ".toList ++ item)
    else []
  let artifactsLine := "artifacts: touched=".toList ++
    natToStr normalized.artifacts.files_touched.length ++ ", created=".toList ++
    natToStr normalized.artifacts.files_created.length ++ ", commands=".toList ++
    natToStr normalized.artifacts.commands_run.length ++ ", errors=".toList ++
    natToStr normalized.artifacts.errors_seen.length ++ ", endpoints=".toList ++
    natToStr normalized.artifacts.external_endpoints.length
  let updatedLine := "updated_at: ".toList ++ normalized.updated_at_iso
  joinNl (["[summary state]".toList, intentLine] ++ constraintLines ++ decisionLines ++
    progressLines ++ openQuestionLines ++ nextStepLines ++ [artifactsLine, updatedLine])

/-- `buildSummaryMessage`. -/
def buildSummaryMessage (env : CompactionEnv) (summaryState : SummaryState) :
    Option ChatMessage :=
  if isSummaryEffectivelyEmpty env summaryState then none
  else some { role := "assistant".toList, text := renderSummaryStateForPrompt env summaryState }

/-- `toChatMessages`. -/
def toChatMessages (env : CompactionEnv) (events : List CompactEvent) : List ChatMessage :=
  events.filterMap env.compactEventToChatMessage

/-- `buildModelContextMessages`: the optional summary message followed by the
projections of the events from the anchor position on. -/
def buildModelContextMessages (env : CompactionEnv) (summaryState : SummaryState)
    (events : List CompactEvent) (anchorEventIndex : Int) : List ChatMessage :=
  let summaryMessage := buildSummaryMessage env summaryState
  let eventMessages := toChatMessages env (events.drop (max 0 anchorEventIndex).toNat)
  match summaryMessage with
  | some m => m :: eventMessages
  | none => eventMessages

/-- `estimateCompactionContextTokens`. -/
def estimateCompactionContextTokens (env : CompactionEnv) (summaryState : SummaryState)
    (events : List CompactEvent) (anchorEventIndex : Int) (pinnedTokenEstimate : Int) : Int :=
  pinnedTokenEstimate +
    env.estimateHistoryTokens (buildModelContextMessages env summaryState events anchorEventIndex)

def MIN_RECENT_EVENTS : Nat := 12
def MIN_RECENT_USER_TURNS : Int := 4

/-- The scan-from-the-end loop of `findRecentUserTurnBoundary`, over the
reversed event list, counting down the user turns still needed. -/
def findUserBoundaryGo : List CompactEvent → Nat → Option Int
  | [], _ => none
  | event :: rest, need =>
    if event.type = CompactEventType.user_msg then
      if need ≤ 1 then some event.index else findUserBoundaryGo rest (need - 1)
    else findUserBoundaryGo rest need

/-- `findRecentUserTurnBoundary`. -/
def findRecentUserTurnBoundary (events : List CompactEvent) (minUserTurns : Int) : Int :=
  let headIndex :=
    match events.head? with
    | some e => e.index
    | none => 0
  if minUserTurns ≤ 0 then headIndex
  else
    match findUserBoundaryGo events.reverse minUserTurns.toNat with
    | some idx => idx
    | none => headIndex

/-- `findMinimumRecentStart`. -/
def findMinimumRecentStart (events : List CompactEvent) : Int :=
  match events with
  | [] => 0
  | first :: _ =>
    let keepByCount := (events.getD (events.length - MIN_RECENT_EVENTS) first).index
    let keepByUserTurns := findRecentUserTurnBoundary events MIN_RECENT_USER_TURNS
    max first.index (min keepByCount keepByUserTurns)

/-- `maxAnchorCandidate`. -/
def maxAnchorCandidate (events : List CompactEvent) (anchorBefore : Int) : Int :=
  if events.isEmpty then anchorBefore
  else max anchorBefore (findMinimumRecentStart events)

/-- `selectForcedAnchorBoundary`. -/
def selectForcedAnchorBoundary (events : List CompactEvent) (anchorBefore : Int) : Int :=
  maxAnchorCandidate events (max anchorBefore 0)

/-- The candidate-scanning loop of `selectAnchorBoundary`; the fuel counts
the remaining loop iterations (`maxCandidate - candidate + 1` at entry). -/
def anchorScanLoop (env : CompactionEnv) (events : List CompactEvent)
    (summaryState : SummaryState) (targetLimit pinnedTokenEstimate : Int) :
    Nat → Int → Int → Int
  | 0, _, maxCandidate => maxCandidate
  | fuel + 1, candidate, maxCandidate =>
    if candidate > maxCandidate then maxCandidate
    else if estimateCompactionContextTokens env summaryState events candidate
        pinnedTokenEstimate ≤ targetLimit then candidate
    else anchorScanLoop env events summaryState targetLimit pinnedTokenEstimate fuel
      (candidate + 1) maxCandidate

/-- `selectAnchorBoundary`. -/
def selectAnchorBoundary (env : CompactionEnv) (events : List CompactEvent)
    (anchorBefore : Int) (summaryState : SummaryState)
    (targetLimit pinnedTokenEstimate : Int) : Int :=
  if events.isEmpty then anchorBefore
  else
    let candidate := max anchorBefore 0
    let maxCandidate := maxAnchorCandidate events candidate
    anchorScanLoop env events summaryState targetLimit pinnedTokenEstimate
      ((maxCandidate - candidate).toNat + 1) candidate maxCandidate

inductive CompactionReason where
  | manual
  | auto
  | provider_switch
deriving DecidableEq

structure AnchoredCompactionResult where
  compressed : Bool
  reason : CompactionReason
  estimated_tokens_before : Int
  estimated_tokens_after : Int
  model_context_window : Int
  high_watermark_limit : Int
  target_limit : Int
  anchor_event_index_before : Int
  anchor_event_index_after : Int
  delta_event_count : Nat
  summary_state : SummaryState

structure AnchoredCompactionInput where
  reason : CompactionReason
  events : List CompactEvent
  lastAnchorEventIndex : Int
  summaryState : SummaryState
  modelContextWindowTokens : Int
  pinnedTokenEstimate : Int
  force : Bool
  highWatermarkRatioOverride : Option Rat
  targetRatioOverride : Option Rat

def highWatermarkRatioDefault : Rat := 82 / 100
def targetRatioDefault : Rat := 58 / 100

/-- `normalizeRatio` (every rational is finite, so only the clamp remains). -/
def normalizeRatio (value : Option Rat) (fallback : Rat) : Rat :=
  match value with
  | none => fallback
  | some v => min (99 / 100 : Rat) (max (1 / 10 : Rat) v)

/-- The event sort at the top of `runAnchoredCompaction`: a stable sort by
index, as with the JS comparator `left.index - right.index`. -/
def sortEventsByIndex (events : List CompactEvent) : List CompactEvent :=
  events.insertionSort (fun left right => left.index ≤ right.index)

/-- `runAnchoredCompaction`. The summariser callback is modelled as a total
function: a callback that throws propagates to the caller in the source and
yields no result at all, so every claim about the returned result lives in
the non-throwing case. -/
def runAnchoredCompaction (env : CompactionEnv) (input : AnchoredCompactionInput) :
    AnchoredCompactionResult :=
  let events := sortEventsByIndex input.events
  let highRatio := normalizeRatio input.highWatermarkRatioOverride highWatermarkRatioDefault
  let targetRatio := normalizeRatio input.targetRatioOverride targetRatioDefault
  let highWatermarkLimit := max 1 ((input.modelContextWindowTokens * highRatio : Rat).floor)
  let targetLimit := max 1 ((input.modelContextWindowTokens * targetRatio : Rat).floor)
  let anchorBefore := max 0 input.lastAnchorEventIndex
  let startSummary := input.summaryState
  let estimatedBefore := estimateCompactionContextTokens env startSummary events
    anchorBefore input.pinnedTokenEstimate
  let overBudget := estimatedBefore > highWatermarkLimit
  let mustRun := input.force = true ∨ input.reason = CompactionReason.provider_switch
  if ¬overBudget ∧ ¬mustRun then
    { compressed := false
      reason := input.reason
      estimated_tokens_before := estimatedBefore
      estimated_tokens_after := estimatedBefore
      model_context_window := input.modelContextWindowTokens
      high_watermark_limit := highWatermarkLimit
      target_limit := targetLimit
      anchor_event_index_before := anchorBefore
      anchor_event_index_after := anchorBefore
      delta_event_count := 0
      summary_state := startSummary }
  else
    let newAnchor :=
      if mustRun then selectForcedAnchorBoundary events anchorBefore
      else selectAnchorBoundary env events anchorBefore startSummary targetLimit
        input.pinnedTokenEstimate
    if newAnchor ≤ anchorBefore then
      if mustRun then
        let deltaEvents : List CompactEvent := []
        let candidateSummary := env.summarizeDelta startSummary deltaEvents
        let mergedSummary := mergeSummaryStates env startSummary candidateSummary
          (some (env.extractArtifactsFromEvents deltaEvents)) none
        let estimatedAfter := estimateCompactionContextTokens env mergedSummary events
          anchorBefore input.pinnedTokenEstimate
        { compressed := true
          reason := input.reason
          estimated_tokens_before := estimatedBefore
          estimated_tokens_after := estimatedAfter
          model_context_window := input.modelContextWindowTokens
          high_watermark_limit := highWatermarkLimit
          target_limit := targetLimit
          anchor_event_index_before := anchorBefore
          anchor_event_index_after := anchorBefore
          delta_event_count := 0
          summary_state := mergedSummary }
      else
        { compressed := false
          reason := input.reason
          estimated_tokens_before := estimatedBefore
          estimated_tokens_after := estimatedBefore
          model_context_window := input.modelContextWindowTokens
          high_watermark_limit := highWatermarkLimit
          target_limit := targetLimit
          anchor_event_index_before := anchorBefore
          anchor_event_index_after := anchorBefore
          delta_event_count := 0
          summary_state := startSummary }
    else
      let deltaEvents := events.filter
        (fun event => anchorBefore ≤ event.index ∧ event.index < newAnchor)
      let candidateSummary := env.summarizeDelta startSummary deltaEvents
      let mergedSummary := mergeSummaryStates env startSummary candidateSummary
        (some (env.extractArtifactsFromEvents deltaEvents)) none
      let estimatedAfter := estimateCompactionContextTokens env mergedSummary events
        newAnchor input.pinnedTokenEstimate
      { compressed := true
        reason := input.reason
        estimated_tokens_before := estimatedBefore
        estimated_tokens_after := estimatedAfter
        model_context_window := input.modelContextWindowTokens
        high_watermark_limit := highWatermarkLimit
        target_limit := targetLimit
        anchor_event_index_before := anchorBefore
        anchor_event_index_after := newAnchor
        delta_event_count := deltaEvents.length
        summary_state := mergedSummary }

/-- The high-watermark limit computed by `runAnchoredCompaction` for a given
input. -/
def compactionHighWatermarkLimit (input : AnchoredCompactionInput) : Int :=
  max 1 ((input.modelContextWindowTokens *
    normalizeRatio input.highWatermarkRatioOverride highWatermarkRatioDefault : Rat).floor)

/-- The pre-pass token estimate computed by `runAnchoredCompaction`: pinned
estimate plus the history estimate of the summary message and the events
from the anchor. -/
def compactionEstimatedBefore (env : CompactionEnv) (input : AnchoredCompactionInput) : Int :=
  estimateCompactionContextTokens env input.summaryState (sortEventsByIndex input.events)
    (max 0 input.lastAnchorEventIndex) input.pinnedTokenEstimate

/-- The length bookkeeping invariant of a background stream state: the
buffer holds exactly the un-dropped part of the output, capped at 300 000
characters. -/
def StreamLenInv (s : BackgroundStreamState) : Prop :=
  s.droppedChars ≤ s.totalChars ∧
  s.buffer.length = s.totalChars - s.droppedChars ∧
  s.totalChars - s.droppedChars ≤ MAX_BACKGROUND_CAPTURE_CHARS

/-- The content invariant of a background stream relative to the full
history of characters appended so far: the buffer is exactly the un-dropped
suffix of the history, capped at 300 000 characters. -/
def StreamContentInv (hist : Str) (s : BackgroundStreamState) : Prop :=
  s.totalChars = hist.length ∧ s.droppedChars ≤ hist.length ∧
  s.buffer = hist.drop s.droppedChars ∧
  hist.length - s.droppedChars ≤ MAX_BACKGROUND_CAPTURE_CHARS ∧
  s.readCursor ≤ hist.length

/-! ## Helper lemmas -/

theorem streamLenInv_append (s : BackgroundStreamState) (chunk : Str)
    (h : StreamLenInv s) : StreamLenInv (appendToBackgroundStream s chunk) := by
  obtain ⟨h1, h2, h3⟩ := h
  simp only [appendToBackgroundStream]
  split_ifs with hc hlen
  · exact ⟨h1, h2, h3⟩
  · refine ⟨?_, ?_, ?_⟩ <;>
      simp only [StreamLenInv, List.length_drop, List.length_append] at hlen ⊢ <;> omega
  · refine ⟨?_, ?_, ?_⟩ <;>
      simp only [List.length_append] at hlen ⊢ <;> omega

theorem streamLenInv_read (s : BackgroundStreamState) (maxChars : Nat) (peek : Bool)
    (h : StreamLenInv s) :
    StreamLenInv (readBackgroundStream s maxChars peek).1 := by
  obtain ⟨h1, h2, h3⟩ := h
  unfold readBackgroundStream
  cases peek <;> exact ⟨h1, h2, h3⟩

theorem readCursor_ge_dropped (s : BackgroundStreamState) (maxChars : Nat) :
    (readBackgroundStream s maxChars false).1.readCursor ≥
      (readBackgroundStream s maxChars false).1.droppedChars := by
  simp only [readBackgroundStream, Bool.false_eq_true, if_false]
  omega

theorem streamLenInv_runOps : ∀ (ops : List StreamOp) (s : BackgroundStreamState),
    StreamLenInv s → StreamLenInv (runStreamOps s ops).1 := by
  intro ops
  induction ops with
  | nil => intro s h; exact h
  | cons op rest ih =>
    intro s h
    cases op with
    | append chunk => exact ih _ (streamLenInv_append s chunk h)
    | read maxChars =>
      simp only [runStreamOps]
      exact ih _ (streamLenInv_read s maxChars false h)

theorem runStreamOps_append_ops (xs : List StreamOp) :
    ∀ (ys : List StreamOp) (s : BackgroundStreamState),
    (runStreamOps s (xs ++ ys)).1 = (runStreamOps (runStreamOps s xs).1 ys).1 := by
  induction xs with
  | nil => intro ys s; rfl
  | cons op rest ih =>
    intro ys s
    cases op with
    | append chunk => simpa only [runStreamOps] using ih ys (appendToBackgroundStream s chunk)
    | read maxChars =>
      simp only [runStreamOps, List.cons_append]
      exact ih ys (readBackgroundStream s maxChars false).1

/-- `find?` returns the unique element of a list satisfying the predicate,
whenever one exists. -/
theorem find_of_unique {α : Type} (p : α → Bool) :
    ∀ (l : List α) (a : α), a ∈ l → p a = true →
      (∀ b ∈ l, p b = true → b = a) → l.find? p = some a := by
  intro l
  induction l with
  | nil => intro a ha; cases ha
  | cons x xs ih =>
    intro a ha hpa huniq
    by_cases hx : p x = true
    · have hxa : x = a := huniq x (List.mem_cons_self x xs) hx
      subst hxa
      simp [List.find?, hx]
    · have hax : a ≠ x := by
        intro h
        exact hx (h ▸ hpa)
      have ha' : a ∈ xs := by
        rcases List.mem_cons.mp ha with h | h
        · exact absurd h hax
        · exact h
      have := ih a ha' hpa (fun b hb hpb => huniq b (List.mem_cons_of_mem x hb) hpb)
      simp [List.find?, hx, this]

theorem decide_fst (s : StreamingChunkingPolicy) (snapshot : StreamingQueueSnapshot)
    (nowMs : Int) (scope : StreamingCommitScope) :
    (s.decide snapshot nowMs scope).1 =
      if snapshot.queuedLines = 0 then
        { mode := StreamingChunkingMode.smooth
          belowExitThresholdSinceMs := none
          lastCatchUpExitAtMs :=
            if s.mode = StreamingChunkingMode.catchup then some nowMs
            else s.lastCatchUpExitAtMs }
      else if s.mode = StreamingChunkingMode.smooth then s.maybeEnterCatchUp snapshot nowMs
      else s.maybeExitCatchUp snapshot nowMs := by
  unfold StreamingChunkingPolicy.decide
  split_ifs <;> dsimp only <;> split_ifs <;> rfl

theorem runPolicy_concat (st : StreamingChunkingPolicy) (xs : List PolicyStep)
    (x : PolicyStep) :
    runPolicy st (xs ++ [x]) =
      ((runPolicy st xs).decide x.snapshot x.nowMs x.scope).1 := by
  simp [runPolicy, List.foldl_append]

theorem maybeEnter_nonenter (s : StreamingChunkingPolicy)
    (snapshot : StreamingQueueSnapshot) (nowMs : Int)
    (henter : shouldEnterCatchUp snapshot = false) :
    s.maybeEnterCatchUp snapshot nowMs = s := by
  simp [StreamingChunkingPolicy.maybeEnterCatchUp, henter]

theorem maybeEnter_enters (s : StreamingChunkingPolicy)
    (snapshot : StreamingQueueSnapshot) (nowMs : Int)
    (henter : shouldEnterCatchUp snapshot = true)
    (hnohold : (∀ t, s.lastCatchUpExitAtMs = some t →
        nowMs - t ≥ REENTER_CATCH_UP_HOLD_MS) ∨ isSevereBacklog snapshot = true) :
    s.maybeEnterCatchUp snapshot nowMs =
      { mode := StreamingChunkingMode.catchup
        belowExitThresholdSinceMs := none
        lastCatchUpExitAtMs := none } := by
  unfold StreamingChunkingPolicy.maybeEnterCatchUp
  rw [henter]
  rw [if_neg (by simp)]
  dsimp only
  rcases hnohold with hh | hsev
  · have hfalse : (match s.lastCatchUpExitAtMs with
        | some t => decide (nowMs - t < REENTER_CATCH_UP_HOLD_MS)
        | none => false) = false := by
      cases hl : s.lastCatchUpExitAtMs with
      | none => rfl
      | some t =>
        simp only [decide_eq_false_iff_not, not_lt]
        exact hh t hl
    rw [hfalse]
    simp
  · rw [hsev]
    simp

theorem maybeEnter_blocked (s : StreamingChunkingPolicy)
    (snapshot : StreamingQueueSnapshot) (nowMs : Int) (t : Int)
    (hlast : s.lastCatchUpExitAtMs = some t)
    (hrecent : nowMs - t < REENTER_CATCH_UP_HOLD_MS)
    (hnotsev : isSevereBacklog snapshot = false) :
    s.maybeEnterCatchUp snapshot nowMs = s := by
  unfold StreamingChunkingPolicy.maybeEnterCatchUp
  by_cases henter : shouldEnterCatchUp snapshot = true
  · rw [henter]
    rw [if_neg (by simp)]
    dsimp only
    rw [hlast, hnotsev]
    simp only [Bool.not_false, Bool.and_true]
    rw [if_pos (by simpa using hrecent)]
  · simp only [Bool.not_eq_true] at henter
    rw [henter]
    simp

theorem maybeEnter_spec (s : StreamingChunkingPolicy) (snapshot : StreamingQueueSnapshot)
    (nowMs : Int) :
    s.maybeEnterCatchUp snapshot nowMs = s ∨
    (s.maybeEnterCatchUp snapshot nowMs).belowExitThresholdSinceMs = none := by
  unfold StreamingChunkingPolicy.maybeEnterCatchUp
  dsimp only
  split_ifs
  · exact Or.inl rfl
  · exact Or.inl rfl
  · exact Or.inr rfl

theorem maybeExit_spec (s : StreamingChunkingPolicy) (snapshot : StreamingQueueSnapshot)
    (nowMs : Int) :
    ((s.maybeExitCatchUp snapshot nowMs).belowExitThresholdSinceMs = none) ∨
    (s.maybeExitCatchUp snapshot nowMs = s ∧ shouldExitCatchUp snapshot = true) ∨
    (s.maybeExitCatchUp snapshot nowMs =
        { s with belowExitThresholdSinceMs := some nowMs } ∧
      shouldExitCatchUp snapshot = true ∧ s.belowExitThresholdSinceMs = none) := by
  obtain ⟨smode, sbelow, slast⟩ := s
  unfold StreamingChunkingPolicy.maybeExitCatchUp
  split_ifs with h1
  · exact Or.inl rfl
  · have hexit : shouldExitCatchUp snapshot = true := by
      simpa using h1
    cases sbelow with
    | none => exact Or.inr (Or.inr ⟨rfl, hexit, rfl⟩)
    | some since =>
      dsimp only
      split_ifs with h2
      · exact Or.inl rfl
      · exact Or.inr (Or.inl ⟨rfl, hexit⟩)

theorem maybeExit_exits (s : StreamingChunkingPolicy) (snapshot : StreamingQueueSnapshot)
    (nowMs : Int) (hmode : s.mode = StreamingChunkingMode.catchup)
    (h : (s.maybeExitCatchUp snapshot nowMs).mode = StreamingChunkingMode.smooth) :
    shouldExitCatchUp snapshot = true ∧
    ∃ t0, s.belowExitThresholdSinceMs = some t0 ∧ nowMs - t0 ≥ EXIT_HOLD_MS := by
  obtain ⟨smode, sbelow, slast⟩ := s
  simp only at hmode
  subst hmode
  unfold StreamingChunkingPolicy.maybeExitCatchUp at h
  by_cases h1 : shouldExitCatchUp snapshot = true
  · rw [if_neg (by simp [h1])] at h
    cases sbelow with
    | none =>
      dsimp only at h
      exact absurd h (by simp)
    | some since =>
      dsimp only at h
      by_cases h2 : nowMs - since ≥ EXIT_HOLD_MS
      · exact ⟨h1, since, rfl, h2⟩
      · rw [if_neg h2] at h
        exact absurd h (by simp)
  · have hfalse : shouldExitCatchUp snapshot = false := by
      simpa using h1
    rw [if_pos (by simp [hfalse])] at h
    exact absurd h (by simp)

theorem policy_belowSince_history (steps : List PolicyStep) :
    ∀ t0, (runPolicy StreamingChunkingPolicy.initial steps).belowExitThresholdSinceMs =
        some t0 →
      (runPolicy StreamingChunkingPolicy.initial steps).mode =
        StreamingChunkingMode.catchup ∧
      ∃ j < steps.length, ∃ stepj, steps[j]? = some stepj ∧ stepj.nowMs = t0 ∧
        ∀ k, j ≤ k → k < steps.length → ∀ stepk, steps[k]? = some stepk →
          shouldExitCatchUp stepk.snapshot = true := by
  induction steps using List.reverseRecOn with
  | nil =>
    intro t0 h
    cases h
  | append_singleton xs x ih =>
    intro t0 h
    rw [runPolicy_concat] at h ⊢
    set s := runPolicy StreamingChunkingPolicy.initial xs with hs
    rw [decide_fst] at h ⊢
    by_cases hq : x.snapshot.queuedLines = 0
    · rw [if_pos hq] at h
      cases h
    · rw [if_neg hq] at h ⊢
      by_cases hmode : s.mode = StreamingChunkingMode.smooth
      · rw [if_pos hmode] at h ⊢
        rcases maybeEnter_spec s x.snapshot x.nowMs with heq | hnone
        · rw [heq] at h ⊢
          have := ih t0 h
          rw [hmode] at this
          cases this.1
        · rw [hnone] at h
          cases h
      · rw [if_neg hmode] at h ⊢
        rcases maybeExit_spec s x.snapshot x.nowMs with hnone | ⟨heq, hexit⟩ |
            ⟨heq, hexit, hbnone⟩
        · rw [hnone] at h
          cases h
        · rw [heq] at h ⊢
          obtain ⟨hcat, j, hj, stepj, hstepj, hnowj, hall⟩ := ih t0 h
          refine ⟨hcat, j, ?_, stepj, ?_, hnowj, ?_⟩
          · simp only [List.length_append, List.length_singleton]
            omega
          · rw [List.getElem?_append_left hj]
            exact hstepj
          · intro k hk1 hk2 stepk hstepk
            simp only [List.length_append, List.length_singleton] at hk2
            by_cases hklt : k < xs.length
            · rw [List.getElem?_append_left hklt] at hstepk
              exact hall k hk1 hklt stepk hstepk
            · have hkeq : k = xs.length := by omega
              subst hkeq
              rw [List.getElem?_concat_length] at hstepk
              cases hstepk
              exact hexit
        · rw [heq] at h ⊢
          have hcat : s.mode = StreamingChunkingMode.catchup := by
            cases hm : s.mode
            · exact absurd hm hmode
            · rfl
          have ht0 : x.nowMs = t0 := by
            simpa using h
          refine ⟨hcat, xs.length, by simp, x, List.getElem?_concat_length xs x, ht0, ?_⟩
          intro k hk1 hk2 stepk hstepk
          simp only [List.length_append, List.length_singleton] at hk2
          have hkeq : k = xs.length := by omega
          subst hkeq
          rw [List.getElem?_concat_length] at hstepk
          cases hstepk
          exact hexit

theorem shouldEnter_iff (snapshot : StreamingQueueSnapshot) :
    shouldEnterCatchUp snapshot = true ↔
      (snapshot.queuedLines ≥ ENTER_QUEUE_DEPTH_LINES ∨
        ∃ age, snapshot.oldestQueuedAgeMs = some age ∧ age ≥ ENTER_OLDEST_AGE_MS) := by
  unfold shouldEnterCatchUp
  cases hage : snapshot.oldestQueuedAgeMs with
  | none => simp [hage]
  | some age => simp [hage]

theorem severe_implies_enter (snapshot : StreamingQueueSnapshot)
    (h : isSevereBacklog snapshot = true) : shouldEnterCatchUp snapshot = true := by
  unfold isSevereBacklog at h
  unfold shouldEnterCatchUp
  cases hage : snapshot.oldestQueuedAgeMs with
  | none =>
    rw [hage] at h
    simp only [Bool.or_false] at h ⊢
    unfold ENTER_QUEUE_DEPTH_LINES
    unfold SEVERE_QUEUE_DEPTH_LINES at h
    simp only [decide_eq_true_eq] at h ⊢
    omega
  | some age =>
    rw [hage] at h
    simp only [Bool.or_eq_true, decide_eq_true_eq] at h ⊢
    unfold ENTER_QUEUE_DEPTH_LINES ENTER_OLDEST_AGE_MS
    unfold SEVERE_QUEUE_DEPTH_LINES SEVERE_OLDEST_AGE_MS at h
    omega

theorem policy_enter_characterization (s : StreamingChunkingPolicy)
    (snapshot : StreamingQueueSnapshot) (nowMs : Int) (scope : StreamingCommitScope)
    (hmode : s.mode = StreamingChunkingMode.smooth)
    (hwf : snapshot.queuedLines = 0 → snapshot.oldestQueuedAgeMs = none)
    (hhold : ∀ t, s.lastCatchUpExitAtMs = some t →
      nowMs - t ≥ REENTER_CATCH_UP_HOLD_MS) :
    ((s.decide snapshot nowMs scope).1.mode = StreamingChunkingMode.catchup ↔
      (snapshot.queuedLines ≥ ENTER_QUEUE_DEPTH_LINES ∨
        ∃ age, snapshot.oldestQueuedAgeMs = some age ∧ age ≥ ENTER_OLDEST_AGE_MS)) := by
  rw [decide_fst]
  by_cases hq : snapshot.queuedLines = 0
  · rw [if_pos hq]
    constructor
    · intro h
      cases h
    · rintro (h8 | ⟨age, hage, _⟩)
      · rw [hq] at h8
        exact absurd h8 (by unfold ENTER_QUEUE_DEPTH_LINES; omega)
      · rw [hwf hq] at hage
        cases hage
  · rw [if_neg hq, if_pos hmode, ← shouldEnter_iff]
    by_cases henter : shouldEnterCatchUp snapshot = true
    · rw [maybeEnter_enters s snapshot nowMs henter (Or.inl hhold)]
      simp [henter]
    · simp only [Bool.not_eq_true] at henter
      rw [maybeEnter_nonenter s snapshot nowMs henter, hmode]
      simp [henter]

theorem policy_reentry_hold (s : StreamingChunkingPolicy)
    (snapshot : StreamingQueueSnapshot) (nowMs : Int) (scope : StreamingCommitScope)
    (t : Int) (hmode : s.mode = StreamingChunkingMode.smooth)
    (hlast : s.lastCatchUpExitAtMs = some t)
    (hrecent : nowMs - t < REENTER_CATCH_UP_HOLD_MS)
    (hq : 0 < snapshot.queuedLines) :
    ((s.decide snapshot nowMs scope).1.mode = StreamingChunkingMode.catchup ↔
      isSevereBacklog snapshot = true) := by
  rw [decide_fst, if_neg (by omega), if_pos hmode]
  by_cases hsev : isSevereBacklog snapshot = true
  · rw [maybeEnter_enters s snapshot nowMs (severe_implies_enter snapshot hsev)
      (Or.inr hsev)]
    simp [hsev]
  · simp only [Bool.not_eq_true] at hsev
    rw [maybeEnter_blocked s snapshot nowMs t hlast hrecent hsev, hmode]
    simp [hsev]

theorem policy_exit_hysteresis (steps : List PolicyStep) (n : Nat) (step : PolicyStep)
    (hstep : steps[n]? = some step)
    (hbefore : (runPolicy StreamingChunkingPolicy.initial (steps.take n)).mode =
      StreamingChunkingMode.catchup)
    (hafter : (runPolicy StreamingChunkingPolicy.initial (steps.take (n + 1))).mode =
      StreamingChunkingMode.smooth) :
    step.snapshot.queuedLines = 0 ∨
      ∃ j < n, ∃ stepj, steps[j]? = some stepj ∧
        step.nowMs - stepj.nowMs ≥ EXIT_HOLD_MS ∧
        ∀ k, j ≤ k → k ≤ n → ∀ stepk, steps[k]? = some stepk →
          shouldExitCatchUp stepk.snapshot = true := by
  have hn : n < steps.length := by
    by_contra hcon
    rw [List.getElem?_eq_none (by omega)] at hstep
    cases hstep
  have htake : steps.take (n + 1) = steps.take n ++ [step] := by
    rw [List.take_succ, hstep]
    rfl
  rw [htake, runPolicy_concat, decide_fst] at hafter
  by_cases hq : step.snapshot.queuedLines = 0
  · exact Or.inl hq
  · right
    rw [if_neg hq, if_neg (by rw [hbefore]; intro h; cases h)] at hafter
    obtain ⟨hexitnow, t0, hbelow, hheld⟩ :=
      maybeExit_exits _ step.snapshot step.nowMs hbefore hafter
    obtain ⟨_, j, hj, stepj, hstepj, hnowj, hall⟩ :=
      policy_belowSince_history (steps.take n) t0 hbelow
    have hlen : (steps.take n).length = n := by
      rw [List.length_take]
      omega
    rw [hlen] at hj hall
    rw [List.getElem?_take_of_lt hj] at hstepj
    refine ⟨j, hj, stepj, hstepj, ?_, ?_⟩
    · rw [hnowj]
      exact hheld
    · intro k hk1 hk2 stepk hstepk
      by_cases hkn : k < n
      · refine hall k hk1 hkn stepk ?_
        rw [List.getElem?_take_of_lt hkn]
        exact hstepk
      · have hkeq : k = n := by omega
        subst hkeq
        rw [hstep] at hstepk
        cases hstepk
        exact hexitnow

theorem drop_split {α : Type} (l : List α) (a b : Nat) (hab : a ≤ b) :
    l.drop a = (l.take b).drop a ++ l.drop b := by
  conv_lhs => rw [← List.take_append_drop b l]
  rw [List.drop_append_eq_append_drop]
  by_cases h : b ≤ l.length
  · have h0 : a - (l.take b).length = 0 := by
      rw [List.length_take]
      omega
    rw [h0, List.drop_zero]
  · have hnil : l.drop b = [] := by
      rw [List.drop_eq_nil_iff]
      omega
    simp [hnil]

theorem segment_concat {α : Type} (l : List α) (a b c : Nat) (hab : a ≤ b)
    (hbc : b ≤ c) :
    (l.take b).drop a ++ (l.take c).drop b = (l.take c).drop a := by
  have h1 : (l.take c).take b = l.take b := by
    rw [List.take_take, min_eq_left hbc]
  rw [← h1]
  exact (drop_split (l.take c) a b hab).symm

theorem streamContentInv_append (s : BackgroundStreamState) (chunk : Str)
    (hist : Str) (h : StreamContentInv hist s) :
    StreamContentInv (hist ++ chunk) (appendToBackgroundStream s chunk) ∧
    (appendToBackgroundStream s chunk).readCursor = s.readCursor := by
  obtain ⟨h1, h2, h3, h4, h5⟩ := h
  have hbuf : s.buffer.length = hist.length - s.droppedChars := by
    rw [h3, List.length_drop]
  simp only [appendToBackgroundStream]
  split_ifs with hc hlen
  · subst hc
    rw [List.append_nil]
    exact ⟨⟨h1, h2, h3, h4, h5⟩, rfl⟩
  · simp only [List.length_append] at hlen
    have hdapp : (hist ++ chunk).drop s.droppedChars = hist.drop s.droppedChars ++ chunk := by
      rw [List.drop_append_eq_append_drop]
      have h0 : s.droppedChars - hist.length = 0 := by omega
      rw [h0, List.drop_zero]
    constructor
    · refine ⟨?_, ?_, ?_, ?_, ?_⟩
      · simp only [List.length_append]
        omega
      · simp only [List.length_append]
        omega
      · rw [h3, ← hdapp, List.drop_drop]
      · simp only [List.length_append, List.length_drop]
        omega
      · simp only [List.length_append]
        omega
    · rfl
  · simp only [List.length_append] at hlen
    constructor
    · refine ⟨?_, ?_, ?_, ?_, ?_⟩
      · simp only [List.length_append]
        omega
      · simp only [List.length_append]
        omega
      · rw [h3, List.drop_append_eq_append_drop]
        have h0 : s.droppedChars - hist.length = 0 := by omega
        rw [h0, List.drop_zero]
      · simp only [List.length_append]
        omega
      · simp only [List.length_append]
        omega
    · rfl


theorem streamContentInv_read (s : BackgroundStreamState) (maxChars : Nat)
    (hist : Str) (h : StreamContentInv hist s) :
    StreamContentInv hist (readBackgroundStream s maxChars false).1 ∧
    (readBackgroundStream s maxChars false).1.droppedChars = s.droppedChars ∧
    (readBackgroundStream s maxChars false).2.text =
      (hist.take (max s.readCursor s.droppedChars +
        min maxChars (hist.length - max s.readCursor s.droppedChars))).drop
        (max s.readCursor s.droppedChars) ∧
    max (readBackgroundStream s maxChars false).1.readCursor
        (readBackgroundStream s maxChars false).1.droppedChars =
      max s.readCursor s.droppedChars +
        min maxChars (hist.length - max s.readCursor s.droppedChars) := by
  obtain ⟨h1, h2, h3, h4, h5⟩ := h
  simp only [readBackgroundStream, Bool.false_eq_true, if_false]
  have hstart : max s.readCursor s.droppedChars ≤ hist.length := by omega
  have htext : (if min maxChars (s.totalChars - max s.readCursor s.droppedChars) > 0 then
      (s.buffer.drop (max s.readCursor s.droppedChars - s.droppedChars)).take
        (min maxChars (s.totalChars - max s.readCursor s.droppedChars))
      else []) =
      (hist.drop (max s.readCursor s.droppedChars)).take
        (min maxChars (hist.length - max s.readCursor s.droppedChars)) := by
    rw [h1]
    split_ifs with hpos
    · rw [h3, List.drop_drop]
      congr 2
      omega
    · have h0 : min maxChars (hist.length - max s.readCursor s.droppedChars) = 0 := by
        omega
      rw [h0, List.take_zero]
  rw [htext]
  have hlen : ((hist.drop (max s.readCursor s.droppedChars)).take
      (min maxChars (hist.length - max s.readCursor s.droppedChars))).length =
      min maxChars (hist.length - max s.readCursor s.droppedChars) := by
    rw [List.length_take, List.length_drop]
    omega
  refine ⟨⟨h1, h2, h3, h4, ?_⟩, trivial, ?_, ?_⟩
  · simp only [hlen]
    omega
  · rw [List.drop_take]
    congr 1
    omega
  · simp only [hlen]
    omega


theorem runStreamOps_append_full (xs : List StreamOp) :
    ∀ (ys : List StreamOp) (s : BackgroundStreamState),
    runStreamOps s (xs ++ ys) =
      ((runStreamOps (runStreamOps s xs).1 ys).1,
        (runStreamOps s xs).2 ++ (runStreamOps (runStreamOps s xs).1 ys).2) := by
  induction xs with
  | nil =>
    intro ys s
    simp [runStreamOps]
  | cons op rest ih =>
    intro ys s
    cases op with
    | append chunk =>
      simp only [List.cons_append, runStreamOps, List.append_eq]
      rw [ih ys (appendToBackgroundStream s chunk)]
    | read maxChars =>
      simp only [List.cons_append, runStreamOps, List.append_eq]
      rw [ih ys (readBackgroundStream s maxChars false).1]

theorem streamOpsOutput_phases (chunks : List Str) (reads : List Nat) :
    streamOpsOutput (chunks.map StreamOp.append ++ reads.map StreamOp.read) =
      chunks.flatten := by
  induction chunks with
  | nil =>
    simp only [List.map_nil, List.nil_append, List.flatten_nil]
    induction reads with
    | nil => rfl
    | cons m ms ihm => simpa [streamOpsOutput] using ihm
  | cons c cs ihc =>
    simp only [List.map_cons, List.cons_append, streamOpsOutput, List.flatten_cons,
      List.append_eq]
    rw [ihc]

theorem streamContent_appendsRun : ∀ (chunks : List Str) (s : BackgroundStreamState)
    (hist : Str), StreamContentInv hist s →
    StreamContentInv (hist ++ chunks.flatten)
      (runStreamOps s (chunks.map StreamOp.append)).1 ∧
    (runStreamOps s (chunks.map StreamOp.append)).1.readCursor = s.readCursor ∧
    (runStreamOps s (chunks.map StreamOp.append)).2 = [] := by
  intro chunks
  induction chunks with
  | nil =>
    intro s hist h
    refine ⟨?_, rfl, rfl⟩
    simpa only [List.flatten_nil, List.append_nil] using h
  | cons c cs ih =>
    intro s hist h
    simp only [List.map_cons, runStreamOps, List.flatten_cons, ← List.append_assoc]
    obtain ⟨hinv, hcur⟩ := streamContentInv_append s c hist h
    obtain ⟨ih1, ih2, ih3⟩ := ih (appendToBackgroundStream s c) (hist ++ c) hinv
    exact ⟨ih1, by rw [ih2, hcur], ih3⟩

theorem streamContent_readsRun : ∀ (reads : List Nat) (s : BackgroundStreamState)
    (hist : Str), StreamContentInv hist s →
    StreamContentInv hist (runStreamOps s (reads.map StreamOp.read)).1 ∧
    (runStreamOps s (reads.map StreamOp.read)).1.droppedChars = s.droppedChars ∧
    max s.readCursor s.droppedChars ≤
      max (runStreamOps s (reads.map StreamOp.read)).1.readCursor
        (runStreamOps s (reads.map StreamOp.read)).1.droppedChars ∧
    List.flatten (runStreamOps s (reads.map StreamOp.read)).2 =
      (hist.take (max (runStreamOps s (reads.map StreamOp.read)).1.readCursor
        (runStreamOps s (reads.map StreamOp.read)).1.droppedChars)).drop
        (max s.readCursor s.droppedChars) := by
  intro reads
  induction reads with
  | nil =>
    intro s hist h
    refine ⟨h, rfl, le_refl _, ?_⟩
    have hempty : (hist.take (max s.readCursor s.droppedChars)).drop
        (max s.readCursor s.droppedChars) = [] := by
      rw [List.drop_take]
      simp
    exact hempty.symm
  | cons m ms ih =>
    intro s hist h
    obtain ⟨hinv, hdrop, htext, hmax⟩ := streamContentInv_read s m hist h
    simp only [List.map_cons, runStreamOps]
    obtain ⟨ih1, ih2, ih3, ih4⟩ := ih (readBackgroundStream s m false).1 hist hinv
    rw [hmax] at ih3
    refine ⟨ih1, by rw [ih2, hdrop], ?_, ?_⟩
    · omega
    · simp only [List.flatten_cons]
      rw [ih4, hmax, htext]
      exact segment_concat hist (max s.readCursor s.droppedChars)
        (max s.readCursor s.droppedChars +
          min m (hist.length - max s.readCursor s.droppedChars))
        (max (runStreamOps (readBackgroundStream s m false).1
            (ms.map StreamOp.read)).1.readCursor
          (runStreamOps (readBackgroundStream s m false).1
            (ms.map StreamOp.read)).1.droppedChars)
        (by omega) ih3

theorem anchorScanLoop_le (env : CompactionEnv) (events : List CompactEvent)
    (summaryState : SummaryState) (targetLimit pinnedTokenEstimate : Int) :
    ∀ (fuel : Nat) (candidate maxCandidate : Int),
      candidate ≤ maxCandidate →
      anchorScanLoop env events summaryState targetLimit pinnedTokenEstimate
        fuel candidate maxCandidate ≤ maxCandidate
  | 0, _, _, _ => le_refl _
  | fuel + 1, candidate, maxCandidate, hcm => by
    simp only [anchorScanLoop]
    split_ifs with h1 h2
    · exact le_refl _
    · exact hcm
    · by_cases hcm' : candidate + 1 ≤ maxCandidate
      · exact anchorScanLoop_le env events summaryState targetLimit
          pinnedTokenEstimate fuel (candidate + 1) maxCandidate hcm'
      · -- candidate = maxCandidate; the recursive call starts above the max
        have : maxCandidate < candidate + 1 := by omega
        cases fuel with
        | zero => exact le_refl _
        | succ fuel' =>
          simp only [anchorScanLoop]
          split_ifs <;> omega

theorem sortEventsByIndex_sorted (events : List CompactEvent) :
    (sortEventsByIndex events).Pairwise (fun a b => a.index ≤ b.index) := by
  haveI : IsTotal CompactEvent (fun a b => a.index ≤ b.index) :=
    ⟨fun a b => Int.le_total a.index b.index⟩
  haveI : IsTrans CompactEvent (fun a b => a.index ≤ b.index) :=
    ⟨fun _ _ _ hab hbc => le_trans hab hbc⟩
  exact List.sorted_insertionSort _ events

theorem sortEventsByIndex_perm (events : List CompactEvent) :
    (sortEventsByIndex events).Perm events :=
  List.perm_insertionSort _ events

theorem findUserBoundaryGo_mem : ∀ (L : List CompactEvent) (n : Nat) (idx : Int),
    findUserBoundaryGo L n = some idx → ∃ e ∈ L, e.index = idx
  | [], n, idx, h => by simp [findUserBoundaryGo] at h
  | e :: rest, n, idx, h => by
    simp only [findUserBoundaryGo] at h
    split_ifs at h with he hn
    · exact ⟨e, List.mem_cons_self e rest, (Option.some.injEq _ _).mp h⟩
    · obtain ⟨e', he', hidx⟩ := findUserBoundaryGo_mem rest (n - 1) idx h
      exact ⟨e', List.mem_cons_of_mem e he', hidx⟩
    · obtain ⟨e', he', hidx⟩ := findUserBoundaryGo_mem rest n idx h
      exact ⟨e', List.mem_cons_of_mem e he', hidx⟩

theorem findUserBoundaryGo_count : ∀ (L : List CompactEvent) (n : Nat) (idx : Int),
    L.Pairwise (fun a b => b.index ≤ a.index) →
    findUserBoundaryGo L n = some idx →
    n ≤ L.countP (fun e =>
      decide (idx ≤ e.index ∧ e.type = CompactEventType.user_msg))
  | [], n, idx, _, h => by simp [findUserBoundaryGo] at h
  | e :: rest, n, idx, hp, h => by
    obtain ⟨hrel, hrest⟩ := List.pairwise_cons.mp hp
    simp only [findUserBoundaryGo] at h
    rw [List.countP_cons]
    split_ifs at h with he hn
    · have hidx : e.index = idx := (Option.some.injEq _ _).mp h
      have hpe : (decide (idx ≤ e.index ∧ e.type = CompactEventType.user_msg)) = true := by
        simp [he, le_of_eq hidx.symm]
      rw [hpe, if_pos rfl]
      omega
    · have hcount := findUserBoundaryGo_count rest (n - 1) idx hrest h
      obtain ⟨e', he', hidx⟩ := findUserBoundaryGo_mem rest (n - 1) idx h
      have hle : idx ≤ e.index := hidx ▸ hrel e' he'
      have hpe : (decide (idx ≤ e.index ∧ e.type = CompactEventType.user_msg)) = true := by
        simp [he, hle]
      rw [hpe, if_pos rfl]
      omega
    · have hcount := findUserBoundaryGo_count rest n idx hrest h
      omega

theorem findUserBoundaryGo_none : ∀ (L : List CompactEvent) (n : Nat),
    findUserBoundaryGo L n = none →
    L.countP (fun e => decide (e.type = CompactEventType.user_msg)) < n ∨ n = 0
  | [], n, _ => by
    rcases Nat.eq_zero_or_pos n with h0 | h0
    · exact Or.inr h0
    · exact Or.inl (by simpa using h0)
  | e :: rest, n, h => by
    simp only [findUserBoundaryGo] at h
    rw [List.countP_cons]
    split_ifs at h with he hn
    · have hpe : (decide (e.type = CompactEventType.user_msg)) = true := by simp [he]
      rw [hpe, if_pos rfl]
      rcases findUserBoundaryGo_none rest (n - 1) h with hc | hc
      · left
        omega
      · left
        omega
    · have hpe : (decide (e.type = CompactEventType.user_msg)) = false := by simp [he]
      rw [hpe]
      simp only [Bool.false_eq_true, if_false]
      rcases findUserBoundaryGo_none rest n h with hc | hc
      · exact Or.inl hc
      · exact Or.inr hc

theorem sorted_index_mono (L : List CompactEvent)
    (hs : L.Pairwise (fun a b => a.index ≤ b.index)) :
    ∀ (i j : Nat) (hi : i < L.length) (hj : j < L.length), i ≤ j →
      (L.get ⟨i, hi⟩).index ≤ (L.get ⟨j, hj⟩).index := by
  intro i j hi hj hij
  rcases Nat.lt_or_ge i j with hlt | hge
  · have := List.pairwise_iff_getElem.mp hs i j hi hj hlt
    simpa using this
  · have : i = j := by omega
    subst this
    exact le_refl _

theorem sorted_first_le (first : CompactEvent) (rest : List CompactEvent)
    (hs : (first :: rest).Pairwise (fun a b => a.index ≤ b.index)) :
    ∀ e ∈ first :: rest, first.index ≤ e.index := by
  intro e he
  rcases List.mem_cons.mp he with rfl | he'
  · exact le_refl _
  · exact List.rel_of_pairwise_cons hs he'

theorem sorted_recent_count_events (first : CompactEvent) (rest : List CompactEvent)
    (hs : (first :: rest).Pairwise (fun a b => a.index ≤ b.index)) :
    min MIN_RECENT_EVENTS (first :: rest).length ≤
      (first :: rest).countP (fun e =>
        decide (findMinimumRecentStart (first :: rest) ≤ e.index)) := by
  set L := first :: rest with hL
  have hlen : 0 < L.length := by simp [hL]
  set d := L.length - MIN_RECENT_EVENTS with hd
  set M := findMinimumRecentStart L with hMdef
  have hdlt : d < L.length := by
    have h12 : MIN_RECENT_EVENTS = 12 := rfl
    omega
  have hkbc : L.getD d first = L.get ⟨d, hdlt⟩ := by
    rw [List.getD_eq_getElem L first hdlt]
    simp
  have hm_le : M ≤ (L.get ⟨d, hdlt⟩).index := by
    have hm : M =
        max first.index (min (L.getD d first).index
          (findRecentUserTurnBoundary L MIN_RECENT_USER_TURNS)) := hMdef.trans rfl
    rw [hm, hkbc]
    have hfd : first.index ≤ (L.get ⟨d, hdlt⟩).index := by
      have := sorted_index_mono L hs 0 d hlen hdlt (Nat.zero_le d)
      simpa [hL] using this
    exact max_le hfd (le_trans (min_le_left _ _) (le_refl _))
  have hdropall : ∀ e ∈ L.drop d,
      (fun e => decide (M ≤ e.index)) e = true := by
    intro e he
    obtain ⟨j, hj, hje⟩ := List.mem_iff_getElem.mp he
    have hdj : d + j < L.length := by
      have := hj
      rw [List.length_drop] at this
      omega
    have : (L.drop d)[j] = L[d + j] := List.getElem_drop L
    rw [this] at hje
    have hmono := sorted_index_mono L hs d (d + j) hdlt hdj (Nat.le_add_right d j)
    simp only [List.get_eq_getElem] at hmono
    rw [hje] at hmono
    simp only [decide_eq_true_eq]
    exact le_trans hm_le (by simpa using hmono)
  have hcount_drop : (L.drop d).countP
      (fun e => decide (M ≤ e.index)) = (L.drop d).length :=
    List.countP_eq_length.mpr hdropall
  have hsplit : L.countP (fun e => decide (M ≤ e.index)) =
      (L.take d).countP (fun e => decide (M ≤ e.index)) +
      (L.drop d).countP (fun e => decide (M ≤ e.index)) := by
    conv_lhs => rw [← List.take_append_drop d L]
    exact List.countP_append _ _ _
  have hlendrop : (L.drop d).length = L.length - d := List.length_drop d L
  have h12 : MIN_RECENT_EVENTS = 12 := rfl
  omega

theorem sorted_recent_count_users (first : CompactEvent) (rest : List CompactEvent)
    (hs : (first :: rest).Pairwise (fun a b => a.index ≤ b.index)) :
    min MIN_RECENT_USER_TURNS.toNat
        ((first :: rest).countP (fun e =>
          decide (e.type = CompactEventType.user_msg))) ≤
      (first :: rest).countP (fun e =>
        decide (findMinimumRecentStart (first :: rest) ≤ e.index ∧
          e.type = CompactEventType.user_msg)) := by
  set L := first :: rest with hL
  set M := findMinimumRecentStart L with hMdef
  set kbu := findRecentUserTurnBoundary L MIN_RECENT_USER_TURNS with hkbudef
  have hfirst_le_kbu : first.index ≤ kbu := by
    rw [hkbudef]
    simp only [findRecentUserTurnBoundary]
    rw [if_neg (by norm_num [MIN_RECENT_USER_TURNS])]
    cases hfb : findUserBoundaryGo L.reverse MIN_RECENT_USER_TURNS.toNat with
    | none =>
      simp [hL, List.head?]
    | some idx =>
      obtain ⟨e, he, hidx⟩ := findUserBoundaryGo_mem L.reverse _ idx hfb
      rw [List.mem_reverse] at he
      have := sorted_first_le first rest (hL ▸ hs) e (hL ▸ he)
      simp only []
      omega
  have hM_le_kbu : M ≤ kbu := by
    have hm : M =
        max first.index (min (L.getD (L.length - MIN_RECENT_EVENTS) first).index kbu) :=
      hMdef.trans rfl
    rw [hm]
    exact max_le hfirst_le_kbu (le_trans (min_le_right _ _) (le_refl _))
  have hfirst_le_M : first.index ≤ M := by
    have hm : M =
        max first.index (min (L.getD (L.length - MIN_RECENT_EVENTS) first).index kbu) :=
      hMdef.trans rfl
    rw [hm]
    exact le_max_left _ _
  have hrev : L.reverse.Pairwise (fun a b => b.index ≤ a.index) :=
    List.pairwise_reverse.mpr hs
  cases hfb : findUserBoundaryGo L.reverse MIN_RECENT_USER_TURNS.toNat with
  | some idx =>
    have hkbu_eq : kbu = idx := by
      rw [hkbudef]
      simp only [findRecentUserTurnBoundary]
      rw [if_neg (by norm_num [MIN_RECENT_USER_TURNS]), hfb]
    have hcount := findUserBoundaryGo_count L.reverse MIN_RECENT_USER_TURNS.toNat idx
      hrev hfb
    rw [(List.reverse_perm L).countP_eq] at hcount
    have hmono : L.countP (fun e =>
        decide (idx ≤ e.index ∧ e.type = CompactEventType.user_msg)) ≤
        L.countP (fun e =>
          decide (M ≤ e.index ∧ e.type = CompactEventType.user_msg)) := by
      apply List.countP_mono_left
      intro e _ he
      simp only [decide_eq_true_eq] at he ⊢
      exact ⟨le_trans (hkbu_eq ▸ hM_le_kbu) he.1, he.2⟩
    exact le_trans (min_le_left _ _) (le_trans hcount hmono)
  | none =>
    have hkbu_eq : kbu = first.index := by
      rw [hkbudef]
      simp only [findRecentUserTurnBoundary]
      rw [if_neg (by norm_num [MIN_RECENT_USER_TURNS]), hfb]
      simp [hL, List.head?]
    have hall : ∀ e ∈ L, M ≤ e.index := by
      intro e he
      exact le_trans (hkbu_eq ▸ hM_le_kbu) (sorted_first_le first rest (hL ▸ hs) e (hL ▸ he))
    have hcongr : L.countP (fun e =>
        decide (M ≤ e.index ∧ e.type = CompactEventType.user_msg)) =
        L.countP (fun e => decide (e.type = CompactEventType.user_msg)) := by
      apply List.countP_congr
      intro e he
      simp only [decide_eq_true_eq]
      constructor
      · exact fun h => h.2
      · exact fun h => ⟨hall e he, h⟩
    rw [hcongr]
    exact min_le_right _ _

theorem compaction_anchor_le (env : CompactionEnv) (input : AnchoredCompactionInput)
    (h : max 0 input.lastAnchorEventIndex ≤
      findMinimumRecentStart (sortEventsByIndex input.events)) :
    (runAnchoredCompaction env input).anchor_event_index_after ≤
      findMinimumRecentStart (sortEventsByIndex input.events) := by
  have haB : (0 : Int) ≤ max 0 input.lastAnchorEventIndex := le_max_left _ _
  simp only [runAnchoredCompaction]
  split_ifs with h1 h2 h3 h4
  all_goals dsimp only
  · exact h
  · exact h
  · simp only [selectForcedAnchorBoundary, maxAnchorCandidate, max_eq_left haB]
    split_ifs with hemp
    · exact h
    · exact max_le h (le_refl _)
  · exact h
  · simp only [selectAnchorBoundary, maxAnchorCandidate, max_eq_left haB]
    split_ifs with hemp
    · exact h
    · exact le_trans
        (anchorScanLoop_le _ _ _ _ _ _ _ _ (le_max_left _ _))
        (max_le h (le_refl _))

theorem runAnchored_forced_stale_anchor (env : CompactionEnv)
    (input : AnchoredCompactionInput) (hforce : input.force = true)
    (hstale : selectForcedAnchorBoundary (sortEventsByIndex input.events)
      (max 0 input.lastAnchorEventIndex) ≤ max 0 input.lastAnchorEventIndex) :
    (runAnchoredCompaction env input).anchor_event_index_after =
      max 0 input.lastAnchorEventIndex := by
  simp only [runAnchoredCompaction]
  rw [if_neg (by intro hcon; exact hcon.2 (Or.inl hforce))]
  rw [if_pos (Or.inl hforce), if_pos hstale, if_pos (Or.inl hforce)]

/-! ## Claim theorems -/

/-- C8: for every tool call executed through `ToolRuntime.execute`, a run
function that throws yields a failure result carrying the thrown error's
message (the exception cannot escape: `execute` is a total function into
`ToolResult`), and an unregistered tool name yields a failure result whose
output status is `"not_found"`. -/
theorem toolRuntime_execute_failure_results :
    (∀ (registry : ToolRegistry) (call : ToolCall) (context : ToolContext)
        (tool : ToolDefinition) (e : Str),
      ToolRegistry.get registry call.name = some tool →
      tool.run call.input context = Except.error e →
      ToolRuntime.execute registry call context =
        { ok := false
          output := Json.obj
            [("callId".toList, jsonOfOptionalId call.id),
             ("tool".toList, Json.str call.name),
             ("status".toList, Json.str ("error".toList))]
          error := some e }) ∧
    (∀ (registry : ToolRegistry) (call : ToolCall) (context : ToolContext),
      ToolRegistry.get registry call.name = none →
      ToolRuntime.execute registry call context =
        { ok := false
          output := Json.obj
            [("callId".toList, jsonOfOptionalId call.id),
             ("tool".toList, Json.str call.name),
             ("status".toList, Json.str ("not_found".toList))]
          error := some ("unknown tool: ".toList ++ call.name) }) := by
  constructor
  · intro registry call context tool e hget hrun
    simp [ToolRuntime.execute, hget, hrun]
  · intro registry call context hget
    simp [ToolRuntime.execute, hget]

/-- C8 witness: a concrete one-tool registry whose run function throws, and
a concrete lookup miss on the empty registry. -/
theorem toolRuntime_execute_failure_results_witness :
    ToolRuntime.execute
        [{ name := "boom".toList, description := [],
           run := fun _ _ => Except.error ("kaput".toList) }]
        { id := none, name := "boom".toList, input := Json.null } { nowMs := 0 } =
      { ok := false
        output := Json.obj
          [("callId".toList, Json.null),
           ("tool".toList, Json.str ("boom".toList)),
           ("status".toList, Json.str ("error".toList))]
        error := some ("kaput".toList) } ∧
    ToolRuntime.execute ([] : ToolRegistry)
        { id := none, name := "nope".toList, input := Json.null } { nowMs := 0 } =
      { ok := false
        output := Json.obj
          [("callId".toList, Json.null),
           ("tool".toList, Json.str ("nope".toList)),
           ("status".toList, Json.str ("not_found".toList))]
        error := some ("unknown tool: ".toList ++ "nope".toList) } := by
  constructor
  · exact toolRuntime_execute_failure_results.1 _ _ _
      { name := "boom".toList, description := [],
        run := fun _ _ => Except.error ("kaput".toList) } ("kaput".toList) rfl rfl
  · exact toolRuntime_execute_failure_results.2 _ _ _ rfl

/-- C6 counterexample: a single append of 300 001 characters to a fresh
stream drops one character while the read cursor stays at 0, so the claimed
invariant conjunct `readCursor ≥ droppedChars` fails right after an append. -/
theorem backgroundStream_cursor_dropped_counterexample :
    ¬((appendToBackgroundStream createBackgroundStreamState
        (List.replicate 300001 'a')).readCursor ≥
      (appendToBackgroundStream createBackgroundStreamState
        (List.replicate 300001 'a')).droppedChars) := by
  have hne : List.replicate 300001 'a' ≠ ([] : Str) := by
    intro h
    have hlen := congrArg List.length h
    simp only [List.length_replicate, List.length_nil] at hlen
    exact absurd hlen (by norm_num)
  suffices h : ∀ chunk : Str, chunk ≠ [] → chunk.length = 300001 →
      ¬((appendToBackgroundStream createBackgroundStreamState chunk).readCursor ≥
        (appendToBackgroundStream createBackgroundStreamState chunk).droppedChars) by
    exact h _ hne (by simp only [List.length_replicate])
  intro chunk hchunkne hchunklen
  simp only [appendToBackgroundStream, createBackgroundStreamState]
  rw [if_neg hchunkne]
  simp only [List.nil_append, hchunklen, MAX_BACKGROUND_CAPTURE_CHARS]
  rw [if_pos (by norm_num)]
  norm_num

/-- C6 (amended): after every sequence of appends and non-peek reads from a
fresh stream, the buffer length equals `min(totalChars − droppedChars,
300 000)` and the unread count equals `max(0, totalChars − max(readCursor,
droppedChars))`; and `readCursor ≥ droppedChars` holds after every read
(an append that drops past the cursor can break it until the next read). -/
theorem backgroundStream_invariants :
    (∀ ops : List StreamOp,
      ((runStreamOps createBackgroundStreamState ops).1.buffer.length =
        min ((runStreamOps createBackgroundStreamState ops).1.totalChars -
          (runStreamOps createBackgroundStreamState ops).1.droppedChars)
          MAX_BACKGROUND_CAPTURE_CHARS) ∧
      ((unreadBackgroundChars (runStreamOps createBackgroundStreamState ops).1 : Int) =
        max 0 (((runStreamOps createBackgroundStreamState ops).1.totalChars : Int) -
          max ((runStreamOps createBackgroundStreamState ops).1.readCursor : Int)
            ((runStreamOps createBackgroundStreamState ops).1.droppedChars : Int)))) ∧
    (∀ (ops : List StreamOp) (maxChars : Nat),
      (runStreamOps createBackgroundStreamState
          (ops ++ [StreamOp.read maxChars])).1.readCursor ≥
        (runStreamOps createBackgroundStreamState
          (ops ++ [StreamOp.read maxChars])).1.droppedChars) := by
  constructor
  · intro ops
    have hinv : StreamLenInv (runStreamOps createBackgroundStreamState ops).1 :=
      streamLenInv_runOps ops createBackgroundStreamState ⟨by decide, by decide, by decide⟩
    obtain ⟨h1, h2, h3⟩ := hinv
    constructor
    · omega
    · unfold unreadBackgroundChars
      omega
  · intro ops maxChars
    rw [runStreamOps_append_ops]
    simp only [runStreamOps]
    exact readCursor_ge_dropped _ maxChars

/-- C7 counterexample: a stdout whose marker block is present but whose
captured cwd block is empty. The markers are present (`stateCaptured`), the
captured cwd text (between `CWD_START` at line 0 and `CWD_END`) trims to the
empty string, yet the baseline cwd is NOT replaced by that captured value: it
keeps its previous value `/x`. -/
theorem bashCapture_empty_cwd_counterexample :
    (parseShellStateCapture
        ("__M__CWD_START\n__M__CWD_END\n__M__ENV_START\nK=v\n__M__ENV_END".toList)
        ("__M__".toList)).stateCaptured = true ∧
    jsTrim (joinNl ((List.take 1 (splitCrlf
        ("__M__CWD_START\n__M__CWD_END\n__M__ENV_START\nK=v\n__M__ENV_END".toList))).drop
        (0 + 1))) = [] ∧
    (bashForegroundUpdate ⟨"/x".toList, []⟩ [] [] ("/p".toList)
        ("__M__CWD_START\n__M__CWD_END\n__M__ENV_START\nK=v\n__M__ENV_END".toList)
        ("__M__".toList)).1.cwd = "/x".toList ∧
    "/x".toList ≠ ([] : Str) := by
  refine ⟨by decide, by decide, by decide, by decide⟩

/-- C7 (amended): when the four ordered marker lines are absent from the
captured stdout, the session env baseline is rolled back to the pre-call
snapshot (the env the command was launched with) while the cwd baseline
retains the override, and the stdout is returned unchanged; when the markers
are present, the env baseline is replaced by the captured environment, the
cwd baseline is replaced by the captured cwd when that is non-empty (and
retained otherwise), and the marker block is stripped from the returned
stdout. -/
theorem bashForeground_capture_rollback (state : BashSessionState) (cwdOverride : Str)
    (envOverrides : EnvMap) (processCwd stdout markerPrefix : Str) :
    ((parseShellStateCapture stdout markerPrefix).stateCaptured = false →
      (bashForegroundUpdate state cwdOverride envOverrides processCwd stdout
        markerPrefix).1.env = bashEnvBefore state envOverrides ∧
      (bashForegroundUpdate state cwdOverride envOverrides processCwd stdout
        markerPrefix).1.cwd = bashCwdBefore state cwdOverride processCwd ∧
      (parseShellStateCapture stdout markerPrefix).cleanedStdout = stdout) ∧
    ((parseShellStateCapture stdout markerPrefix).stateCaptured = true →
      (parseShellStateCapture stdout markerPrefix).envAfter =
        some (bashForegroundUpdate state cwdOverride envOverrides processCwd stdout
          markerPrefix).1.env ∧
      (∀ c, (parseShellStateCapture stdout markerPrefix).cwdAfter = some c →
        (bashForegroundUpdate state cwdOverride envOverrides processCwd stdout
          markerPrefix).1.cwd = c) ∧
      ((parseShellStateCapture stdout markerPrefix).cwdAfter = none →
        (bashForegroundUpdate state cwdOverride envOverrides processCwd stdout
          markerPrefix).1.cwd = bashCwdBefore state cwdOverride processCwd) ∧
      (∀ a b c d, shellMarkerIndices stdout markerPrefix = some (a, b, c, d) →
        (parseShellStateCapture stdout markerPrefix).cleanedStdout =
          trimTrailingNewlines (joinNl ((splitCrlf stdout).take a ++
            (splitCrlf stdout).drop (d + 1))))) := by
  cases hidx : shellMarkerIndices stdout markerPrefix with
  | none =>
    constructor
    · intro _
      refine ⟨?_, ?_, ?_⟩ <;>
        simp [bashForegroundUpdate, parseShellStateCapture, bashEnvBefore, bashCwdBefore, hidx]
    · intro hcap
      exfalso
      simp [parseShellStateCapture, hidx] at hcap
  | some idx =>
    obtain ⟨a, b, c, d⟩ := idx
    constructor
    · intro hcap
      exfalso
      simp [parseShellStateCapture, hidx] at hcap
    · intro _
      refine ⟨?_, ?_, ?_, ?_⟩
      · simp [parseShellStateCapture, bashForegroundUpdate, hidx]
      · intro cwdValue hc
        simp only [parseShellStateCapture, hidx] at hc
        simp only [bashForegroundUpdate, parseShellStateCapture, hidx]
        split_ifs at hc ⊢ with hempty <;> simp_all
      · intro hc
        simp only [parseShellStateCapture, hidx] at hc
        simp only [bashForegroundUpdate, parseShellStateCapture, hidx]
        split_ifs at hc ⊢ with hempty <;> simp_all [bashCwdBefore]
      · intro a' b' c' d' h'
        simp only [Option.some.injEq, Prod.mk.injEq] at h'
        obtain ⟨rfl, rfl, rfl, rfl⟩ := h'
        simp [parseShellStateCapture, hidx]

/-- C7 witness: a marker-less stdout rolls the env back to the launch env,
and a captured `/new` cwd replaces the baseline cwd. -/
theorem bashForeground_capture_rollback_witness:
    ((bashForegroundUpdate ⟨"/x".toList, [("A".toList, "1".toList)]⟩ []
        [("B".toList, "2".toList)] ("/p".toList) ("hello".toList)
        ("__M__".toList)).1.env =
      bashEnvBefore ⟨"/x".toList, [("A".toList, "1".toList)]⟩
        [("B".toList, "2".toList)]) ∧
    ((bashForegroundUpdate ⟨"/x".toList, []⟩ [] [] ("/p".toList)
        ("__M__CWD_START\n/new\n__M__CWD_END\n__M__ENV_START\nK=v\n__M__ENV_END".toList)
        ("__M__".toList)).1.cwd = "/new".toList) := by
  constructor
  · exact ((bashForeground_capture_rollback ⟨"/x".toList, [("A".toList, "1".toList)]⟩ []
      [("B".toList, "2".toList)] ("/p".toList) ("hello".toList)
      ("__M__".toList)).1 (by decide)).1
  · exact (((bashForeground_capture_rollback ⟨"/x".toList, []⟩ [] [] ("/p".toList)
      ("__M__CWD_START\n/new\n__M__CWD_END\n__M__ENV_START\nK=v\n__M__ENV_END".toList)
      ("__M__".toList)).2 (by decide)).2.1) ("/new".toList) (by decide)

/-- C9 (amended): (i) from smooth mode, outside an active re-entry hold and
for a well-formed snapshot (no age without queued lines), the policy enters
catchup exactly when queued ≥ 8 or oldest-age ≥ 120 ms; (ii) it leaves
catchup only when the queue is empty (immediate exit) or after the exit
condition (queued ≤ 2 and age ≤ 40 ms) has held at every tick of a window
spanning at least 250 ms; (iii) from smooth mode within 250 ms of the last
catchup exit and with a non-empty queue, it re-enters exactly when the
backlog is severe (queued ≥ 64 or age ≥ 300 ms). -/
theorem streamingPolicy_hysteresis :
    (∀ (s : StreamingChunkingPolicy) (snapshot : StreamingQueueSnapshot)
        (nowMs : Int) (scope : StreamingCommitScope),
      s.mode = StreamingChunkingMode.smooth →
      (snapshot.queuedLines = 0 → snapshot.oldestQueuedAgeMs = none) →
      (∀ t, s.lastCatchUpExitAtMs = some t → nowMs - t ≥ REENTER_CATCH_UP_HOLD_MS) →
      ((s.decide snapshot nowMs scope).1.mode = StreamingChunkingMode.catchup ↔
        (snapshot.queuedLines ≥ ENTER_QUEUE_DEPTH_LINES ∨
          ∃ age, snapshot.oldestQueuedAgeMs = some age ∧ age ≥ ENTER_OLDEST_AGE_MS))) ∧
    (∀ (steps : List PolicyStep) (n : Nat) (step : PolicyStep),
      steps[n]? = some step →
      (runPolicy StreamingChunkingPolicy.initial (steps.take n)).mode =
        StreamingChunkingMode.catchup →
      (runPolicy StreamingChunkingPolicy.initial (steps.take (n + 1))).mode =
        StreamingChunkingMode.smooth →
      step.snapshot.queuedLines = 0 ∨
        ∃ j < n, ∃ stepj, steps[j]? = some stepj ∧
          step.nowMs - stepj.nowMs ≥ EXIT_HOLD_MS ∧
          ∀ k, j ≤ k → k ≤ n → ∀ stepk, steps[k]? = some stepk →
            shouldExitCatchUp stepk.snapshot = true) ∧
    (∀ (s : StreamingChunkingPolicy) (snapshot : StreamingQueueSnapshot)
        (nowMs : Int) (scope : StreamingCommitScope) (t : Int),
      s.mode = StreamingChunkingMode.smooth →
      s.lastCatchUpExitAtMs = some t →
      nowMs - t < REENTER_CATCH_UP_HOLD_MS →
      0 < snapshot.queuedLines →
      ((s.decide snapshot nowMs scope).1.mode = StreamingChunkingMode.catchup ↔
        isSevereBacklog snapshot = true)) :=
  ⟨policy_enter_characterization, policy_exit_hysteresis, policy_reentry_hold⟩

/-- C9 counterexample: entering catchup at t=0 and feeding an empty queue at
t=10 exits catchup immediately — 10 ms after entry, so the exit condition
cannot have held for 250 ms, contradicting the claim that the policy leaves
catchup only after a 250 ms hold. -/
theorem streamingPolicy_instant_exit_counterexample :
    ([⟨⟨9, some 10⟩, 0, StreamingCommitScope.any⟩,
        ⟨⟨0, none⟩, 10, StreamingCommitScope.any⟩] : List PolicyStep)[1]? =
      some ⟨⟨0, none⟩, 10, StreamingCommitScope.any⟩ ∧
    (runPolicy StreamingChunkingPolicy.initial
        (([⟨⟨9, some 10⟩, 0, StreamingCommitScope.any⟩,
          ⟨⟨0, none⟩, 10, StreamingCommitScope.any⟩] : List PolicyStep).take 1)).mode =
      StreamingChunkingMode.catchup ∧
    (runPolicy StreamingChunkingPolicy.initial
        (([⟨⟨9, some 10⟩, 0, StreamingCommitScope.any⟩,
          ⟨⟨0, none⟩, 10, StreamingCommitScope.any⟩] : List PolicyStep).take 2)).mode =
      StreamingChunkingMode.smooth ∧
    (∀ j < 1, ∀ stepj : PolicyStep,
      ([⟨⟨9, some 10⟩, 0, StreamingCommitScope.any⟩,
        ⟨⟨0, none⟩, 10, StreamingCommitScope.any⟩] : List PolicyStep)[j]? = some stepj →
      (10 : Int) - stepj.nowMs < EXIT_HOLD_MS) := by
  refine ⟨by decide, by decide, by decide, ?_⟩
  intro j hj stepj hstepj
  interval_cases j
  · cases hstepj
    decide

/-- C9 witness: concrete instances of all three parts — an entry at queued=9,
a hysteresis exit after a 290 ms hold, and a severe-backlog re-entry during
the hold window. -/
theorem streamingPolicy_hysteresis_witness :
    ((StreamingChunkingPolicy.initial.decide ⟨9, some 10⟩ 0
        StreamingCommitScope.any).1.mode = StreamingChunkingMode.catchup ↔
      ((9 : Nat) ≥ ENTER_QUEUE_DEPTH_LINES ∨
        ∃ age, (some (10 : Int) = some age) ∧ age ≥ ENTER_OLDEST_AGE_MS)) ∧
    ((⟨⟨2, some 40⟩, 300, StreamingCommitScope.any⟩ :
        PolicyStep).snapshot.queuedLines = 0 ∨
      ∃ j < 2, ∃ stepj, ([⟨⟨9, some 10⟩, 0, StreamingCommitScope.any⟩,
          ⟨⟨2, some 40⟩, 10, StreamingCommitScope.any⟩,
          ⟨⟨2, some 40⟩, 300, StreamingCommitScope.any⟩] : List PolicyStep)[j]? =
          some stepj ∧
        (⟨⟨2, some 40⟩, 300, StreamingCommitScope.any⟩ : PolicyStep).nowMs -
          stepj.nowMs ≥ EXIT_HOLD_MS ∧
        ∀ k, j ≤ k → k ≤ 2 → ∀ stepk,
          ([⟨⟨9, some 10⟩, 0, StreamingCommitScope.any⟩,
            ⟨⟨2, some 40⟩, 10, StreamingCommitScope.any⟩,
            ⟨⟨2, some 40⟩, 300, StreamingCommitScope.any⟩] : List PolicyStep)[k]? =
            some stepk →
          shouldExitCatchUp stepk.snapshot = true) ∧
    (((⟨StreamingChunkingMode.smooth, none, some 0⟩ :
          StreamingChunkingPolicy).decide ⟨64, some 10⟩ 100
        StreamingCommitScope.any).1.mode = StreamingChunkingMode.catchup ↔
      isSevereBacklog ⟨64, some 10⟩ = true) := by
  refine ⟨?_, ?_, ?_⟩
  · exact streamingPolicy_hysteresis.1 StreamingChunkingPolicy.initial ⟨9, some 10⟩ 0
      StreamingCommitScope.any rfl (by decide) (fun t h => nomatch h)
  · exact streamingPolicy_hysteresis.2.1
      [⟨⟨9, some 10⟩, 0, StreamingCommitScope.any⟩,
        ⟨⟨2, some 40⟩, 10, StreamingCommitScope.any⟩,
        ⟨⟨2, some 40⟩, 300, StreamingCommitScope.any⟩] 2
      ⟨⟨2, some 40⟩, 300, StreamingCommitScope.any⟩ (by decide) (by decide) (by decide)
  · exact streamingPolicy_hysteresis.2.2 ⟨StreamingChunkingMode.smooth, none, some 0⟩ ⟨64, some 10⟩ 100
      StreamingCommitScope.any 0 rfl rfl (by decide) (by decide)

/-- C3: applying the update patch `@@ / foo / -bar / +baz` to a file holding
exactly `"foo\nbar\n"` through the `apply_patch` pipeline succeeds, rewrites
the file to exactly `"foo\nbaz\n"`, and the returned summary includes the
line `M <path>`. -/
theorem applyPatch_update_foo_bar_to_baz :
    applyPatchPipeline
        ("*** Begin Patch\n*** Update File: f.txt\n@@\n foo\n-bar\n+baz\n*** End Patch".toList)
        id [("f.txt".toList, "foo\nbar\n".toList)] =
      Except.ok ([("f.txt".toList, "foo\nbaz\n".toList)],
        "Success. Updated the following files:\nM f.txt".toList) ∧
    "M f.txt".toList ∈ splitNl ("Success. Updated the following files:\nM f.txt".toList) := by
  exact ⟨rfl, by decide⟩

/-- C4 counterexample: an update chunk whose old-line sequence occurs
exactly once in the file with exact whitespace, but which is EOF-anchored
(`*** End of File`): the applier pins the search to the end of the file and
resolves the chunk at position 3 through the trim-end fuzzy tier, not at the
unique exact occurrence, position 0. -/
theorem patchChunk_unique_exact_eof_counterexample :
    (∀ j < 4, matchesPattern
        ["a".toList, "b".toList, "c".toList, "a ".toList, "b ".toList]
        ["a".toList, "b".toList] j PatchMatchMode.exact = true → j = 0) ∧
    matchesPattern ["a".toList, "b".toList, "c".toList, "a ".toList, "b ".toList]
      ["a".toList, "b".toList] 0 PatchMatchMode.exact = true ∧
    computePatchReplacements
        ["a".toList, "b".toList, "c".toList, "a ".toList, "b ".toList]
        ("f.txt".toList)
        [{ changeContext := none, oldLines := ["a".toList, "b".toList],
           newLines := ["x".toList], isEndOfFile := true }] =
      Except.ok [{ startIndex := 3, oldLength := 2, newLines := ["x".toList] }] ∧
    (3 : Nat) ≠ 0 := by
  refine ⟨by decide, by decide, by rfl, by decide⟩

/-- C4 (amended): for an update chunk that is not EOF-anchored, if the
chunk's old-line sequence occurs exactly once in the file with exact
whitespace and that occurrence lies at or after the chunk's search cursor,
`seekSequence` resolves to exactly that occurrence — regardless of where the
trim-end, full-trim or Unicode-normalised tiers would also match. -/
theorem seekSequence_unique_exact_occurrence (lines pattern : List Str)
    (start i₀ : Nat) (hlen : 0 < pattern.length)
    (hbound : i₀ + pattern.length ≤ lines.length)
    (hmatch : matchesPattern lines pattern i₀ PatchMatchMode.exact = true)
    (huniq : ∀ j, j + pattern.length ≤ lines.length →
      matchesPattern lines pattern j PatchMatchMode.exact = true → j = i₀)
    (hstart : start ≤ i₀) :
    seekSequence lines pattern start false = some i₀ := by
  have hple : pattern.length ≤ lines.length := by omega
  have hmax : i₀ ≤ lines.length - pattern.length := by omega
  unfold seekSequence
  rw [if_neg (by omega), if_neg (by omega)]
  simp only [Bool.false_eq_true, false_and, if_false]
  rw [if_neg (show ¬(start > lines.length - pattern.length) by omega)]
  have hmem : i₀ ∈ List.range' start (lines.length - pattern.length + 1 - start) := by
    rw [List.mem_range'_1]
    omega
  have hfind :
      (List.range' start (lines.length - pattern.length + 1 - start)).find?
        (fun i => matchesPattern lines pattern i PatchMatchMode.exact) = some i₀ := by
    apply find_of_unique _ _ _ hmem hmatch
    intro j hj hpj
    rw [List.mem_range'_1] at hj
    exact huniq j (by omega) hpj
  simp only [hfind]

/-- C4 witness: on the file `["a", "b"]` the pattern `["b"]` occurs exactly
once, at position 1; the applier resolves it there. -/
theorem runAnchoredCompaction_under_watermark_verbatim
    (env : CompactionEnv) (input : AnchoredCompactionInput)
    (hreason : input.reason ≠ CompactionReason.provider_switch)
    (hforce : input.force = false)
    (hbudget : compactionEstimatedBefore env input ≤ compactionHighWatermarkLimit input) :
    (runAnchoredCompaction env input).compressed = false ∧
    (runAnchoredCompaction env input).anchor_event_index_after =
      (runAnchoredCompaction env input).anchor_event_index_before ∧
    (runAnchoredCompaction env input).summary_state = input.summaryState := by
  have hnm : ¬(input.force = true ∨ input.reason = CompactionReason.provider_switch) := by
    rintro (hf | hr)
    · rw [hforce] at hf
      cases hf
    · exact hreason hr
  unfold compactionEstimatedBefore compactionHighWatermarkLimit at hbudget
  simp only [runAnchoredCompaction]
  split_ifs with h1
  · exact ⟨rfl, rfl, rfl⟩
  all_goals
    exfalso
    rw [not_and_or] at h1
    rcases h1 with h | h
    · rw [not_not] at h
      exact absurd hbudget (not_le.mpr h)
    · exact h hnm

/-- C2 witness: a concrete non-forced, non-provider-switch pass whose
estimate (0) sits under the high watermark (82). -/
theorem runAnchoredCompaction_under_watermark_verbatim_witness :
    (runAnchoredCompaction
        ⟨fun _ => 0, fun s _ => s, fun _ => none, fun _ => emptyArtifacts,
          fun _ => none, []⟩
        ⟨CompactionReason.manual, [], 0,
          ⟨[], [], [], [], [], [], ⟨[], [], [], [], []⟩, []⟩, 100, 0, false,
          none, none⟩).compressed = false ∧
    (runAnchoredCompaction
        ⟨fun _ => 0, fun s _ => s, fun _ => none, fun _ => emptyArtifacts,
          fun _ => none, []⟩
        ⟨CompactionReason.manual, [], 0,
          ⟨[], [], [], [], [], [], ⟨[], [], [], [], []⟩, []⟩, 100, 0, false,
          none, none⟩).anchor_event_index_after =
      (runAnchoredCompaction
        ⟨fun _ => 0, fun s _ => s, fun _ => none, fun _ => emptyArtifacts,
          fun _ => none, []⟩
        ⟨CompactionReason.manual, [], 0,
          ⟨[], [], [], [], [], [], ⟨[], [], [], [], []⟩, []⟩, 100, 0, false,
          none, none⟩).anchor_event_index_before ∧
    (runAnchoredCompaction
        ⟨fun _ => 0, fun s _ => s, fun _ => none, fun _ => emptyArtifacts,
          fun _ => none, []⟩
        ⟨CompactionReason.manual, [], 0,
          ⟨[], [], [], [], [], [], ⟨[], [], [], [], []⟩, []⟩, 100, 0, false,
          none, none⟩).summary_state =
      ⟨[], [], [], [], [], [], ⟨[], [], [], [], []⟩, []⟩ :=
  runAnchoredCompaction_under_watermark_verbatim _ _ (by decide) rfl
    (by
      have h0 : compactionEstimatedBefore
          ⟨fun _ => 0, fun s _ => s, fun _ => none, fun _ => emptyArtifacts,
            fun _ => none, []⟩
          ⟨CompactionReason.manual, [], 0,
            ⟨[], [], [], [], [], [], ⟨[], [], [], [], []⟩, []⟩, 100, 0, false,
            none, none⟩ = 0 := rfl
      rw [h0]
      unfold compactionHighWatermarkLimit
      exact le_max_of_le_left (by norm_num))

/-- C10: a forced pass (`force=true` or `reason="provider_switch"`) whose
computed new anchor does not exceed the previous anchor still reports
`compressed=true` with `delta_event_count=0`, leaves the anchor unchanged,
and returns the previous summary merged with the summariser's output on an
empty delta (so `summarizeDelta` is invoked on `[]` and its candidate is
folded in). -/
theorem runAnchoredCompaction_forced_empty_delta
    (env : CompactionEnv) (input : AnchoredCompactionInput)
    (hforce : input.force = true ∨ input.reason = CompactionReason.provider_switch)
    (hanchor : selectForcedAnchorBoundary (sortEventsByIndex input.events)
      (max 0 input.lastAnchorEventIndex) ≤ max 0 input.lastAnchorEventIndex) :
    (runAnchoredCompaction env input).compressed = true ∧
    (runAnchoredCompaction env input).delta_event_count = 0 ∧
    (runAnchoredCompaction env input).anchor_event_index_after =
      (runAnchoredCompaction env input).anchor_event_index_before ∧
    (runAnchoredCompaction env input).summary_state =
      mergeSummaryStates env input.summaryState
        (env.summarizeDelta input.summaryState [])
        (some (env.extractArtifactsFromEvents [])) none := by
  simp only [runAnchoredCompaction]
  split_ifs with h1
  · exact absurd hforce h1.2
  · exact ⟨rfl, rfl, rfl, rfl⟩

/-- C10 witness: a concrete forced pass with no events, whose anchor cannot
advance. -/
theorem runAnchoredCompaction_forced_empty_delta_witness :
    (runAnchoredCompaction
        ⟨fun _ => 0, fun s _ => s, fun _ => none, fun _ => emptyArtifacts,
          fun _ => none, []⟩
        ⟨CompactionReason.manual, [], 0,
          ⟨[], [], [], [], [], [], ⟨[], [], [], [], []⟩, []⟩, 100, 0, true,
          none, none⟩).compressed = true ∧
    (runAnchoredCompaction
        ⟨fun _ => 0, fun s _ => s, fun _ => none, fun _ => emptyArtifacts,
          fun _ => none, []⟩
        ⟨CompactionReason.manual, [], 0,
          ⟨[], [], [], [], [], [], ⟨[], [], [], [], []⟩, []⟩, 100, 0, true,
          none, none⟩).delta_event_count = 0 ∧
    (runAnchoredCompaction
        ⟨fun _ => 0, fun s _ => s, fun _ => none, fun _ => emptyArtifacts,
          fun _ => none, []⟩
        ⟨CompactionReason.manual, [], 0,
          ⟨[], [], [], [], [], [], ⟨[], [], [], [], []⟩, []⟩, 100, 0, true,
          none, none⟩).anchor_event_index_after =
      (runAnchoredCompaction
        ⟨fun _ => 0, fun s _ => s, fun _ => none, fun _ => emptyArtifacts,
          fun _ => none, []⟩
        ⟨CompactionReason.manual, [], 0,
          ⟨[], [], [], [], [], [], ⟨[], [], [], [], []⟩, []⟩, 100, 0, true,
          none, none⟩).anchor_event_index_before ∧
    (runAnchoredCompaction
        ⟨fun _ => 0, fun s _ => s, fun _ => none, fun _ => emptyArtifacts,
          fun _ => none, []⟩
        ⟨CompactionReason.manual, [], 0,
          ⟨[], [], [], [], [], [], ⟨[], [], [], [], []⟩, []⟩, 100, 0, true,
          none, none⟩).summary_state =
      mergeSummaryStates
        ⟨fun _ => 0, fun s _ => s, fun _ => none, fun _ => emptyArtifacts,
          fun _ => none, []⟩
        ⟨[], [], [], [], [], [], ⟨[], [], [], [], []⟩, []⟩
        (⟨[], [], [], [], [], [], ⟨[], [], [], [], []⟩, []⟩)
        (some emptyArtifacts) none :=
  runAnchoredCompaction_forced_empty_delta _ _ (Or.inl rfl) (by decide)

theorem seekSequence_unique_exact_occurrence_witness :
    seekSequence ["a".toList, "b".toList] ["b".toList] 0 false = some 1 := by
  apply seekSequence_unique_exact_occurrence
  · decide
  · decide
  · decide
  · intro j hj hm
    have hj1 : j ≤ 1 := by
      simpa using hj
    interval_cases j
    · exact absurd hm (by decide)
    · rfl
  · exact Nat.zero_le 1


/-- C5 counterexample: append 300 000 characters, read one, then append two
more characters. The second append drops two characters from the front of
the output -- one of which was already returned by the first read -- so the
concatenation of the slices returned by a draining read sequence repeats
that character and differs from the appended output trimmed of its leading
`droppedChars` characters, even though every appended character has been
consumed. -/
theorem backgroundStream_dropped_overtake_counterexample :
    unreadBackgroundChars (runStreamOps createBackgroundStreamState
      [StreamOp.append (List.replicate 300000 'a'), StreamOp.read 1,
        StreamOp.append ['c', 'd'], StreamOp.read 300002]).1 = 0 ∧
    List.flatten (runStreamOps createBackgroundStreamState
        [StreamOp.append (List.replicate 300000 'a'), StreamOp.read 1,
          StreamOp.append ['c', 'd'], StreamOp.read 300002]).2 ≠
      (streamOpsOutput [StreamOp.append (List.replicate 300000 'a'), StreamOp.read 1,
          StreamOp.append ['c', 'd'], StreamOp.read 300002]).drop
        ((runStreamOps createBackgroundStreamState
          [StreamOp.append (List.replicate 300000 'a'), StreamOp.read 1,
            StreamOp.append ['c', 'd'], StreamOp.read 300002]).1.droppedChars) := by
  suffices h : ∀ A : Str, A.length = 300000 →
      unreadBackgroundChars (runStreamOps createBackgroundStreamState
        [StreamOp.append A, StreamOp.read 1,
          StreamOp.append ['c', 'd'], StreamOp.read 300002]).1 = 0 ∧
      List.flatten (runStreamOps createBackgroundStreamState
          [StreamOp.append A, StreamOp.read 1,
            StreamOp.append ['c', 'd'], StreamOp.read 300002]).2 ≠
        (streamOpsOutput [StreamOp.append A, StreamOp.read 1,
            StreamOp.append ['c', 'd'], StreamOp.read 300002]).drop
          ((runStreamOps createBackgroundStreamState
            [StreamOp.append A, StreamOp.read 1,
              StreamOp.append ['c', 'd'], StreamOp.read 300002]).1.droppedChars) by
    exact h (List.replicate 300000 'a') (by simp only [List.length_replicate])
  intro A hlen
  have hAne : A ≠ [] := by
    intro h0
    rw [h0] at hlen
    exact absurd hlen (by decide)
  have h1 : appendToBackgroundStream createBackgroundStreamState A =
      ⟨A, 300000, 0, 0⟩ := by
    simp [appendToBackgroundStream, createBackgroundStreamState, hAne, hlen,
      MAX_BACKGROUND_CAPTURE_CHARS]
  have h2 : readBackgroundStream (⟨A, 300000, 0, 0⟩ : BackgroundStreamState) 1 false =
      (⟨A, 300000, 0, (A.take 1).length⟩,
        ⟨A.take 1, (A.take 1).length, true, false⟩) := by
    simp [readBackgroundStream, hlen]
  have htake1 : (A.take 1).length = 1 := by
    rw [List.length_take]
    omega
  rw [htake1] at h2
  have h3 : appendToBackgroundStream (⟨A, 300000, 0, 1⟩ : BackgroundStreamState)
      ['c', 'd'] = ⟨(A ++ ['c', 'd']).drop 2, 300002, 2, 1⟩ := by
    simp [appendToBackgroundStream, hlen, MAX_BACKGROUND_CAPTURE_CHARS]
  have hBlen : ((A ++ ['c', 'd']).drop 2).length = 300000 := by
    simp [hlen]
  have hBtake : ((A ++ ['c', 'd']).drop 2).take 300000 = (A ++ ['c', 'd']).drop 2 := by
    rw [← hBlen, List.take_length]
  have h4 : readBackgroundStream
      (⟨(A ++ ['c', 'd']).drop 2, 300002, 2, 1⟩ : BackgroundStreamState) 300002 false =
      (⟨(A ++ ['c', 'd']).drop 2, 300002, 2, 300002⟩,
        ⟨(A ++ ['c', 'd']).drop 2, 300002, false, true⟩) := by
    simp [readBackgroundStream, hBlen, hBtake]
  have hrun : runStreamOps createBackgroundStreamState
      [StreamOp.append A, StreamOp.read 1, StreamOp.append ['c', 'd'],
        StreamOp.read 300002] =
      (⟨(A ++ ['c', 'd']).drop 2, 300002, 2, 300002⟩,
        [A.take 1, (A ++ ['c', 'd']).drop 2]) := by
    simp only [runStreamOps, h1, h2, h3, h4]
  rw [hrun]
  refine ⟨by simp [unreadBackgroundChars], ?_⟩
  intro heq
  have hlens := congrArg List.length heq
  simp only [List.flatten, List.append_nil, List.length_append, htake1,
    List.length_drop, streamOpsOutput, hBlen] at hlens
  simp [hlen] at hlens

/-- C5 (amended): for every sequence of appends followed by a sequence of
non-peek reads that together consume the whole stream (unread count zero at
the end), the concatenation of the returned text slices equals the total
appended output with the leading `droppedChars` characters trimmed off the
front. If appends interleave with reads, an append that drops past the read
cursor can make an already-returned character reappear in a later slice, so
the interleaved form of the claim fails. -/
theorem backgroundStream_reads_concatenate (chunks : List Str) (reads : List Nat)
    (hconsumed : unreadBackgroundChars
      (runStreamOps createBackgroundStreamState
        (chunks.map StreamOp.append ++ reads.map StreamOp.read)).1 = 0) :
    List.flatten (runStreamOps createBackgroundStreamState
        (chunks.map StreamOp.append ++ reads.map StreamOp.read)).2 =
      (streamOpsOutput (chunks.map StreamOp.append ++ reads.map StreamOp.read)).drop
        ((runStreamOps createBackgroundStreamState
          (chunks.map StreamOp.append ++ reads.map StreamOp.read)).1.droppedChars) := by
  have hinit : StreamContentInv [] createBackgroundStreamState := by
    refine ⟨rfl, by simp [createBackgroundStreamState], rfl, ?_, by simp [createBackgroundStreamState]⟩
    simp [MAX_BACKGROUND_CAPTURE_CHARS, createBackgroundStreamState]
  obtain ⟨hA, hAcur, hAslices⟩ :=
    streamContent_appendsRun chunks createBackgroundStreamState [] hinit
  rw [List.nil_append] at hA
  set sA := (runStreamOps createBackgroundStreamState (chunks.map StreamOp.append)).1
    with hsA
  obtain ⟨hR, hRdrop, hRmono, hRjoin⟩ :=
    streamContent_readsRun reads sA chunks.flatten hA
  have hsplit := runStreamOps_append_full (chunks.map StreamOp.append)
    (reads.map StreamOp.read) createBackgroundStreamState
  rw [hsplit] at hconsumed ⊢
  dsimp only at hconsumed ⊢
  rw [← hsA] at hconsumed ⊢
  simp only [hAslices, List.nil_append]
  -- the final cursor/dropped reach the end of the output
  obtain ⟨hF1, hF2, _, _, hF5⟩ := hR
  have hcurA : sA.readCursor = 0 := by
    rw [hAcur]
    rfl
  unfold unreadBackgroundChars at hconsumed
  rw [hF1] at hconsumed
  have hMF : max (runStreamOps sA (reads.map StreamOp.read)).1.readCursor
      (runStreamOps sA (reads.map StreamOp.read)).1.droppedChars =
      chunks.flatten.length := by
    omega
  rw [hRjoin, hMF, hcurA] at *
  rw [streamOpsOutput_phases]
  rw [List.take_length]
  rw [hRdrop]
  congr 1
  omega

/-- C5 witness: a single two-character append followed by one draining read;
the slices concatenate to the appended output (nothing dropped). -/
theorem backgroundStream_reads_concatenate_witness :
    unreadBackgroundChars (runStreamOps createBackgroundStreamState
      ([['a', 'b']].map StreamOp.append ++ [5].map StreamOp.read)).1 = 0 ∧
    List.flatten (runStreamOps createBackgroundStreamState
        ([['a', 'b']].map StreamOp.append ++ [5].map StreamOp.read)).2 =
      (streamOpsOutput ([['a', 'b']].map StreamOp.append ++
          [5].map StreamOp.read)).drop
        ((runStreamOps createBackgroundStreamState
          ([['a', 'b']].map StreamOp.append ++
            [5].map StreamOp.read)).1.droppedChars) :=
  ⟨by decide, backgroundStream_reads_concatenate [['a', 'b']] [5] (by decide)⟩


/-- C1 counterexample: a single user-message event at index 0, a previous
anchor at index 100, and a forced pass. The forced anchor selection takes
the maximum of the previous anchor and the minimum recent start, so the
stale anchor 100 is kept; the post-compaction tail (index ≥ 100) is empty,
holding neither min(12, 1) = 1 event nor min(4, 1) = 1 user-message event,
refuting the unconditional form of the claim. -/
theorem compaction_recent_tail_counterexample :
    ¬(min MIN_RECENT_EVENTS
        ([⟨0, [], CompactEventType.user_msg, Json.null⟩] : List CompactEvent).length ≤
        ([⟨0, [], CompactEventType.user_msg, Json.null⟩] : List CompactEvent).countP
          (fun e => decide ((runAnchoredCompaction
            ⟨fun _ => 0, fun s _ => s, fun _ => none, fun _ => emptyArtifacts,
              fun _ => none, []⟩
            ⟨CompactionReason.manual,
              [⟨0, [], CompactEventType.user_msg, Json.null⟩], 100,
              ⟨[], [], [], [], [], [], ⟨[], [], [], [], []⟩, []⟩, 100, 0, true,
              none, none⟩).anchor_event_index_after ≤ e.index)) ∧
      min MIN_RECENT_USER_TURNS.toNat
          (([⟨0, [], CompactEventType.user_msg, Json.null⟩] : List CompactEvent).countP
            (fun e => decide (e.type = CompactEventType.user_msg))) ≤
        ([⟨0, [], CompactEventType.user_msg, Json.null⟩] : List CompactEvent).countP
          (fun e => decide ((runAnchoredCompaction
            ⟨fun _ => 0, fun s _ => s, fun _ => none, fun _ => emptyArtifacts,
              fun _ => none, []⟩
            ⟨CompactionReason.manual,
              [⟨0, [], CompactEventType.user_msg, Json.null⟩], 100,
              ⟨[], [], [], [], [], [], ⟨[], [], [], [], []⟩, []⟩, 100, 0, true,
              none, none⟩).anchor_event_index_after ≤ e.index ∧
            e.type = CompactEventType.user_msg))) := by
  intro hcl
  obtain ⟨h1, _⟩ := hcl
  rw [runAnchored_forced_stale_anchor _ _ rfl (by decide)] at h1
  exact absurd h1 (by decide)

/-- C1 (amended): whenever the incoming anchor does not already cut into
the minimum recent window -- max(0, lastAnchorEventIndex) is at most
findMinimumRecentStart of the sorted events -- the post-compaction tail,
i.e. the events whose index is at least the returned
anchor_event_index_after, contains at least min(12, total) events and at
least min(4, total user-message) user-message events. -/
theorem runAnchoredCompaction_recent_tail (env : CompactionEnv) (input : AnchoredCompactionInput)
    (h : max 0 input.lastAnchorEventIndex ≤
      findMinimumRecentStart (sortEventsByIndex input.events)) :
    min MIN_RECENT_EVENTS input.events.length ≤
      input.events.countP (fun e =>
        decide ((runAnchoredCompaction env input).anchor_event_index_after ≤ e.index)) ∧
    min MIN_RECENT_USER_TURNS.toNat
        (input.events.countP (fun e => decide (e.type = CompactEventType.user_msg))) ≤
      input.events.countP (fun e =>
        decide ((runAnchoredCompaction env input).anchor_event_index_after ≤ e.index ∧
          e.type = CompactEventType.user_msg)) := by
  have hA := compaction_anchor_le env input h
  set A := (runAnchoredCompaction env input).anchor_event_index_after with hAdef
  set L := sortEventsByIndex input.events with hLdef
  have hperm : L.Perm input.events := sortEventsByIndex_perm input.events
  have hs : L.Pairwise (fun a b => a.index ≤ b.index) :=
    sortEventsByIndex_sorted input.events
  simp only [← hperm.countP_eq, ← hperm.length_eq]
  cases hL : L with
  | nil =>
    rw [hL] at hperm
    simp
  | cons first rest =>
    rw [hL] at hA hs
    have ha := sorted_recent_count_events first rest hs
    have hb := sorted_recent_count_users first rest hs
    constructor
    · refine le_trans ha (List.countP_mono_left ?_)
      intro e _ he
      simp only [decide_eq_true_eq] at he ⊢
      exact le_trans hA he
    · refine le_trans hb (List.countP_mono_left ?_)
      intro e _ he
      simp only [decide_eq_true_eq] at he ⊢
      exact ⟨le_trans hA he.1, he.2⟩

/-- C1 witness: a two-event input (one user message, one assistant message)
with anchor 0 and a forced pass; the hypothesis holds and the theorem
applies. -/
theorem runAnchoredCompaction_recent_tail_witness :
    min MIN_RECENT_EVENTS
      ([⟨0, [], CompactEventType.user_msg, Json.null⟩,
        ⟨1, [], CompactEventType.assistant_msg, Json.null⟩] : List CompactEvent).length ≤
      ([⟨0, [], CompactEventType.user_msg, Json.null⟩,
        ⟨1, [], CompactEventType.assistant_msg, Json.null⟩] : List CompactEvent).countP
        (fun e => decide ((runAnchoredCompaction
          ⟨fun _ => 0, fun s _ => s, fun _ => none, fun _ => emptyArtifacts,
            fun _ => none, []⟩
          ⟨CompactionReason.manual,
            [⟨0, [], CompactEventType.user_msg, Json.null⟩,
              ⟨1, [], CompactEventType.assistant_msg, Json.null⟩], 0,
            ⟨[], [], [], [], [], [], ⟨[], [], [], [], []⟩, []⟩, 100, 0, true,
            none, none⟩).anchor_event_index_after ≤ e.index)) ∧
    min MIN_RECENT_USER_TURNS.toNat
        (([⟨0, [], CompactEventType.user_msg, Json.null⟩,
          ⟨1, [], CompactEventType.assistant_msg, Json.null⟩] : List CompactEvent).countP
          (fun e => decide (e.type = CompactEventType.user_msg))) ≤
      ([⟨0, [], CompactEventType.user_msg, Json.null⟩,
        ⟨1, [], CompactEventType.assistant_msg, Json.null⟩] : List CompactEvent).countP
        (fun e => decide ((runAnchoredCompaction
          ⟨fun _ => 0, fun s _ => s, fun _ => none, fun _ => emptyArtifacts,
            fun _ => none, []⟩
          ⟨CompactionReason.manual,
            [⟨0, [], CompactEventType.user_msg, Json.null⟩,
              ⟨1, [], CompactEventType.assistant_msg, Json.null⟩], 0,
            ⟨[], [], [], [], [], [], ⟨[], [], [], [], []⟩, []⟩, 100, 0, true,
            none, none⟩).anchor_event_index_after ≤ e.index ∧
          e.type = CompactEventType.user_msg)) :=
  runAnchoredCompaction_recent_tail
    ⟨fun _ => 0, fun s _ => s, fun _ => none, fun _ => emptyArtifacts,
      fun _ => none, []⟩
    ⟨CompactionReason.manual,
      [⟨0, [], CompactEventType.user_msg, Json.null⟩,
        ⟨1, [], CompactEventType.assistant_msg, Json.null⟩], 0,
      ⟨[], [], [], [], [], [], ⟨[], [], [], [], []⟩, []⟩, 100, 0, true,
      none, none⟩
    (by decide)

end Loaf
